import Mathlib

/-!
# Verification of the SQL Sandbox Execution Engine
Shallow embedding of `src/services/sql-execution.js` (MicroLearning backend).

Text is modelled as `String` / `List Char`.  The relational backend is an
abstract state machine (`Backend σ`): `exec` runs one statement against a
transaction state, `commitErr`/`rollbackErr`/`acquireErr` model the failure
modes of `connection.commit()`, `connection.rollback()` and
`pool.getConnection()`.  The module-level connection pool is modelled in its
steady state (already initialized): `initializePool` failure rejects the whole
call before any of the behaviour the claims are about.

Every pool/connection interaction is recorded in a trace of events so that
claims about attempted statements, rollbacks and connection release can be
stated observably.
-/

/-- JS `\s` (ASCII portion): space, tab, line feed, vertical tab, form feed,
carriage return.  `sql-execution.js` only ever meets ASCII SQL text. -/
def jsIsSpace (c : Char) : Bool :=
  c.toNat == 32 || c.toNat == 9 || c.toNat == 10 || c.toNat == 11 ||
  c.toNat == 12 || c.toNat == 13

/-- JS `\w` = `[A-Za-z0-9_]`, the class used by the namespacing regexes and by
the sanitizer `[^a-zA-Z0-9_]`. -/
def isWordChar (c : Char) : Bool :=
  (48 ≤ c.toNat && c.toNat ≤ 57) || (65 ≤ c.toNat && c.toNat ≤ 90) ||
  (97 ≤ c.toNat && c.toNat ≤ 122) || c.toNat == 95

/-- `[A-Za-z]`, the class of the comment-conversion regex `^([A-Za-z].+)`. -/
def isAsciiLetter (c : Char) : Bool :=
  (65 ≤ c.toNat && c.toNat ≤ 90) || (97 ≤ c.toNat && c.toNat ≤ 122)

/-- ASCII lower-casing, used for the case-insensitive (`/i`) regex matching. -/
def lc (c : Char) : Char :=
  if 65 ≤ c.toNat && c.toNat ≤ 90 then Char.ofNat (c.toNat + 32) else c

/-- ASCII upper-casing, used for JS `toUpperCase()` on SQL lines. -/
def ucChar (c : Char) : Char :=
  if 97 ≤ c.toNat && c.toNat ≤ 122 then Char.ofNat (c.toNat - 32) else c

/-- JS `String.prototype.trim` on a character list (ASCII whitespace). -/
def jsTrimL (l : List Char) : List Char :=
  ((l.dropWhile jsIsSpace).reverse.dropWhile jsIsSpace).reverse

/-- JS `trim` on `String`. -/
def jsTrimS (s : String) : String := ⟨jsTrimL s.data⟩

/-- JS `s.substring(0, 100) + (s.length > 100 ? '...' : '')`, used by
`executeMultipleStatements` to record statement text. -/
def jsSubstr100 (s : String) : String :=
  if s.data.length > 100 then ⟨s.data.take 100⟩ ++ "..." else s

/-- JS `String.prototype.split(sep)` for a one-character separator, on
character lists: `"a;b".split(';') = ["a","b"]`, `"".split(';') = [""]`. -/
def splitSep (sep : Char) : List Char → List (List Char)
  | [] => [[]]
  | c :: cs =>
    match splitSep sep cs with
    | [] => [[]]
    | h :: t => if c = sep then [] :: h :: t else (c :: h) :: t

/-- JS `split` at the `String` level. -/
def jsSplit (sep : Char) (s : String) : List String :=
  (splitSep sep s.data).map fun l => ⟨l⟩

/-- An Oracle error as surfaced by node-oracledb (`err.message`, `err.errorNum`). -/
structure OraErr where
  message : String
  errorNum : Int
deriving DecidableEq, Repr

/-- What `connection.execute` returns: the fields of the result object the
code reads (`rowsAffected`) plus the row set and column metadata the backend
may return (which the code ignores). `none` models an absent JS field. -/
structure ExecOut where
  rowsAffected : Option Nat := none
  rows : Option (List (List Int)) := none
  metaData : Option (List String) := none
deriving DecidableEq, Repr

/-- Observable pool/connection events of one call. -/
inductive Ev
  | acquire
  | execStmt (s : String)
  | commit
  | rollback
  | release
deriving DecidableEq, Repr

/-- The abstract relational backend.  `σ` is the (committed or transactional)
database state; `exec` is deterministic: one statement either fails (leaving
the state unchanged, as a failed Oracle statement does) or succeeds with a
result and a new state.  `parse` is the parse-only facility used by
`validateQuery`.

Modelled from the spec: the backend itself is not part of the repository; §4.5
of the spec specifies `DBMS_SQL.PARSE` as a native parse-only facility that
checks syntax without mutating persistent state, so `parse` is a pure
function; `.error` models the `connection.execute` call of the PL/SQL block
throwing, `.ok (some msg)` a parse failure with `SQLERRM` text, `.ok none`
success. -/
structure Backend (σ : Type) where
  acquireErr : Option OraErr := none
  exec : String → σ → Except OraErr (ExecOut × σ)
  commitErr : Option OraErr := none
  rollbackErr : Option OraErr := none
  parse : String → Except OraErr (Option String) := fun _ => .ok none

/-- One element of the per-statement `results` array.  Fields the JS object
never carries (row set, column names) are modelled as always-`none` options,
mirroring that reading an absent JS key yields `undefined`. -/
structure StmtResult where
  success : Bool
  statement : String
  affectedRows : Option Nat := none
  error : Option String := none
  errorNum : Option Int := none
  rows : Option (List (List Int)) := none
  columns : Option (List String) := none
deriving DecidableEq, Repr

/-- The overall result object of `executeQuery` / `executeMultipleStatements`.
`executionTime` mirrors a wall-clock field the code never sets. -/
structure QueryResult where
  success : Bool
  results : Option (List StmtResult) := none
  message : Option String := none
  error : Option String := none
  errorNum : Option Int := none
  query : Option String := none
  executionTime : Option Nat := none
deriving DecidableEq, Repr

/-- Result + final committed backend state + event trace of one call. -/
structure Outcome (σ : Type) where
  res : QueryResult
  state : σ
  trace : List Ev
deriving DecidableEq, Repr

/-- The `{valid, error}` object returned by `validateQuery`. -/
structure ValResult where
  valid : Bool
  error : Option String := none
deriving DecidableEq, Repr

/-- Result + final state + trace of one `validateQuery` call. -/
structure ValOutcome (σ : Type) where
  res : ValResult
  state : σ
  trace : List Ev
deriving DecidableEq, Repr

/-- The statement texts attempted against the backend, read off a trace. -/
def execArgs (t : List Ev) : List String :=
  t.filterMap fun e => match e with
    | .execStmt s => some s
    | _ => none

/-- The `for (const stmt of statements)` loop of `executeQuery`
(lines 65–85): each trimmed statement is executed with `autoCommit: true`
(a success is immediately durable, so a single state suffices: failures leave
the state unchanged and successes commit at once); an execution error is
caught per-statement and recorded, and the loop continues. -/
def adhocLoop {σ : Type} (B : Backend σ) : List String → σ → List StmtResult × σ × List Ev
  | [], st => ([], st, [])
  | stmt :: rest, st =>
    if jsTrimS stmt = "" then adhocLoop B rest st
    else
      match B.exec (jsTrimS stmt) st with
      | .ok (out, st1) =>
        let r := adhocLoop B rest st1
        ({ success := true, statement := jsTrimS stmt,
           affectedRows := some (out.rowsAffected.getD 0) } :: r.1,
         r.2.1, Ev.execStmt (jsTrimS stmt) :: Ev.commit :: r.2.2)
      | .error e =>
        let r := adhocLoop B rest st
        ({ success := false, statement := jsTrimS stmt,
           error := some e.message, errorNum := some e.errorNum } :: r.1,
         r.2.1, Ev.execStmt (jsTrimS stmt) :: r.2.2)

/-- `executeQuery(query, bindParams, sessionId)` (lines 41–113).  The
`sessionId` parameter is accepted and, exactly as in the source, never used.
`bindParams` (defaulted to `{}` by every caller that matters) is absorbed
into `Backend.exec`. -/
def executeQuery {σ : Type} (B : Backend σ) (s0 : σ) (query : String)
    (_sessionId : Option String := none) : Outcome σ :=
  if jsTrimS query = "" then
    { res := { success := false, error := some "Empty query" }, state := s0, trace := [] }
  else
    match B.acquireErr with
    | some e =>
      { res := { success := false, error := some e.message, errorNum := some e.errorNum,
                 query := some (jsSubstr100 query) },
        state := s0, trace := [] }
    | none =>
      let statements := (jsSplit ';' query).filter fun s => jsTrimS s ≠ ""
      let r := adhocLoop B statements s0
      let allSuccessful := r.1.all (·.success)
      { res := { success := allSuccessful, results := some r.1,
                 message := some (if allSuccessful then "All statements executed successfully"
                                  else "Some statements failed") },
        state := r.2.1,
        trace := Ev.acquire :: r.2.2 ++ [Ev.release] }

example :
    (executeQuery { exec := fun _ n => .ok ({ rowsAffected := some 1 }, n + 1) }
      (0 : Nat) "INSERT INTO t VALUES (1); INSERT INTO t VALUES (2)").state = 2 := by
  decide

example :
    (executeQuery { exec := fun _ n => .ok ({}, n + 1) } (0 : Nat) "   ").res.error
      = some "Empty query" := by decide

/-- The statement `executeMultipleStatements` runs first to open its explicit
transaction (line 131). -/
def setTxnStmt : String := "SET TRANSACTION READ WRITE"

/-- The `for (const stmt of statements)` loop of `executeMultipleStatements`
(lines 137–157): blank statements are skipped, each statement is executed raw
(no trimming, no auto-commit, so only the transaction state advances), the
first error is recorded and breaks the loop.  Returns
(results, final transaction state, trace, successful flag). -/
def setupLoop {σ : Type} (B : Backend σ) :
    List String → σ → List StmtResult × σ × List Ev × Bool
  | [], st => ([], st, [], true)
  | stmt :: rest, st =>
    if jsTrimS stmt = "" then setupLoop B rest st
    else
      match B.exec stmt st with
      | .ok (out, st1) =>
        let r := setupLoop B rest st1
        ({ success := true, statement := jsSubstr100 stmt,
           affectedRows := some (out.rowsAffected.getD 0) } :: r.1,
         r.2.1, Ev.execStmt stmt :: r.2.2.1, r.2.2.2)
      | .error e =>
        ([{ success := false, statement := jsSubstr100 stmt,
            error := some e.message, errorNum := some e.errorNum }],
         st, [Ev.execStmt stmt], false)

/-- `executeMultipleStatements(statements, sessionId)` (lines 120–196).
The connection starts with committed state = transaction state = `s0`; the
committed state only changes at a successful `connection.commit()`, so a
statement failure (rollback, line 163), a commit failure (outer catch,
line 175) and even a rollback failure (swallowed, then caught with a second
rollback attempt) all leave the persistent state at `s0`.  `sessionId` is,
as in the source, unused. -/
def executeMultipleStatements {σ : Type} (B : Backend σ) (s0 : σ)
    (statements : List String) (_sessionId : Option String := none) : Outcome σ :=
  match B.acquireErr with
  | some e =>
    -- pool.getConnection() threw: outer catch, connection is undefined,
    -- so no rollback and no close.
    { res := { success := false, error := some e.message, results := some [] },
      state := s0, trace := [] }
  | none =>
    match B.exec setTxnStmt s0 with
    | .error e =>
      -- "SET TRANSACTION READ WRITE" threw: outer catch rolls back
      -- (error swallowed if that fails too) and returns.
      { res := { success := false, error := some e.message, results := some [] },
        state := s0,
        trace := [Ev.acquire, Ev.execStmt setTxnStmt, Ev.rollback, Ev.release] }
    | .ok (_, s1) =>
      let r := setupLoop B statements s1
      if r.2.2.2 then
        match B.commitErr with
        | none =>
          { res := { success := true, results := some r.1,
                     message := some "All statements executed successfully" },
            state := r.2.1,
            trace := [Ev.acquire, Ev.execStmt setTxnStmt] ++ r.2.2.1
                      ++ [Ev.commit, Ev.release] }
        | some e =>
          -- commit threw: outer catch attempts a rollback and returns
          -- success:false with an EMPTY results array (line 181–185).
          { res := { success := false, error := some e.message, results := some [] },
            state := s0,
            trace := [Ev.acquire, Ev.execStmt setTxnStmt] ++ r.2.2.1
                      ++ [Ev.commit, Ev.rollback, Ev.release] }
      else
        match B.rollbackErr with
        | none =>
          { res := { success := false, results := some r.1,
                     message := some "Execution failed with errors" },
            state := s0,
            trace := [Ev.acquire, Ev.execStmt setTxnStmt] ++ r.2.2.1
                      ++ [Ev.rollback, Ev.release] }
        | some e =>
          -- the rollback at line 163 threw: outer catch attempts a second
          -- rollback (swallowed) and returns results: [].
          { res := { success := false, error := some e.message, results := some [] },
            state := s0,
            trace := [Ev.acquire, Ev.execStmt setTxnStmt] ++ r.2.2.1
                      ++ [Ev.rollback, Ev.rollback, Ev.release] }

/-- `validateQuery(query)` (lines 203–249): runs the anonymous PL/SQL block
that calls `DBMS_SQL.PARSE` with out-binds `valid` / `error_msg` and maps the
out-binds onto `{valid, error}`; any thrown error is caught and mapped to
`{valid:false, error:<message>}`. -/
def validateQuery {σ : Type} (B : Backend σ) (s0 : σ) (query : String) : ValOutcome σ :=
  match B.acquireErr with
  | some e => { res := { valid := false, error := some e.message }, state := s0, trace := [] }
  | none =>
    let tr := [Ev.acquire, Ev.execStmt "DBMS_SQL.PARSE", Ev.release]
    match B.parse query with
    | .error e => { res := { valid := false, error := some e.message }, state := s0, trace := tr }
    | .ok none => { res := { valid := true, error := none }, state := s0, trace := tr }
    | .ok (some msg) => { res := { valid := false, error := some msg }, state := s0, trace := tr }

/-- The session sanitizer of `resetEnvironment` (line 263):
`sessionId.replace(/[^a-zA-Z0-9_]/g, '_').substring(0, 20)` — every character
outside `[A-Za-z0-9_]` is REPLACED by `'_'`, then the result is truncated to
20 characters. -/
def safeSessionIdL (l : List Char) : List Char :=
  (l.map fun c => if isWordChar c then c else '_').take 20

/-- `safeSessionId` at the `String` level. -/
def safeSessionId (s : String) : String := ⟨safeSessionIdL s.data⟩

/-- The sanitizer as the SPEC describes it (§4.2: "strip everything outside
`[A-Za-z0-9_]`, then truncate to a bounded length").  This definition follows
the spec's words and exists only to be compared against `safeSessionId`. -/
def specSanitizeToken (l : List Char) : List Char :=
  (l.filter isWordChar).take 20

example : safeSessionId "alice-1!" = "alice_1_" := by decide
example : safeSessionId "user@example.com_1234567890" = "user_example_com_123" := by decide

/-! ## The session namespacer (resetEnvironment, lines 275–286)

Two global, case-insensitive JS regex replacements, embedded as left-to-right
scanners.  Both regexes are backtracking-free in effect: every `\s+`/`\w+` is
followed by a character class disjoint from the one being munched, the
alternations are first-character disjoint, and when the negative lookahead
`(?!IF\s+NOT\s+EXISTS\s+)` fails at the greedy `\s+` boundary every shorter
split fails at the subsequent `(\w+)`, so maximal munch is faithful. -/

/-- Case-insensitive literal match (regex `/i` on an ASCII literal): returns
the rest of the input after the literal. -/
def matchCI : List Char → List Char → Option (List Char)
  | [], s => some s
  | _ :: _, [] => none
  | p :: ps, c :: cs => if lc c = lc p then matchCI ps cs else none

/-- Greedy `\s+`: returns (matched whitespace, rest); fails on no whitespace. -/
def matchWs1 (s : List Char) : Option (List Char × List Char) :=
  match s with
  | [] => none
  | c :: _ => if jsIsSpace c then some (s.takeWhile jsIsSpace, s.dropWhile jsIsSpace) else none

/-- Greedy `\w+`: returns (matched word, rest); fails on no word character. -/
def matchWord1 (s : List Char) : Option (List Char × List Char) :=
  match s with
  | [] => none
  | c :: _ => if isWordChar c then some (s.takeWhile isWordChar, s.dropWhile isWordChar) else none

/-- Group 1 of the CREATE regex, `(OR\s+REPLACE\s+)?` when present: returns
(captured text, rest). -/
def orReplace (s : List Char) : Option (List Char × List Char) :=
  match matchCI "or".data s with
  | none => none
  | some r1 =>
    match matchWs1 r1 with
    | none => none
    | some (_, r2) =>
      match matchCI "replace".data r2 with
      | none => none
      | some r3 =>
        match matchWs1 r3 with
        | none => none
        | some (_, r4) => some (s.take (s.length - r4.length), r4)

/-- Group 2 alternation `(TABLE|TYPE|VIEW)`: first-character/second-character
disjoint, so committing to the first alternative that matches is faithful. -/
def tvvAlt (s : List Char) : Option (List Char × List Char) :=
  match matchCI "table".data s with
  | some r => some (s.take 5, r)
  | none =>
    match matchCI "type".data s with
    | some r => some (s.take 4, r)
    | none =>
      match matchCI "view".data s with
      | some r => some (s.take 4, r)
      | none => none

/-- The negative lookahead body `IF\s+NOT\s+EXISTS\s+` (case-insensitive):
`true` iff it matches a prefix of `s`. -/
def lookIfNotExists (s : List Char) : Bool :=
  (match matchCI "if".data s with
   | none => none
   | some r1 =>
     match matchWs1 r1 with
     | none => none
     | some (_, r2) =>
       match matchCI "not".data r2 with
       | none => none
       | some r3 =>
         match matchWs1 r3 with
         | none => none
         | some (_, r4) =>
           match matchCI "exists".data r4 with
           | none => none
           | some r5 =>
             match matchWs1 r5 with
             | none => none
             | some (_, r6) => some r6).isSome

/-- Tail of the CREATE regex after group 1:
`(TABLE|TYPE|VIEW)\s+(?!IF\s+NOT\s+EXISTS\s+)(\w+)`.
Returns (group2 text, group3 identifier, rest). -/
def tryCreateTail (r : List Char) : Option (List Char × List Char × List Char) :=
  match tvvAlt r with
  | none => none
  | some (g2, r1) =>
    match matchWs1 r1 with
    | none => none
    | some (_, r2) =>
      if lookIfNotExists r2 then none
      else
        match matchWord1 r2 with
        | none => none
        | some (g3, r3) => some (g2, g3, r3)

/-- Try the whole CREATE regex
`/CREATE\s+(OR\s+REPLACE\s+)?(TABLE|TYPE|VIEW)\s+(?!IF\s+NOT\s+EXISTS\s+)(\w+)/i`
at the head of `s`; on a match, return the replacement
`CREATE $1$2 ${tok}_$3` and the rest of the input (JS backtracking: if group 1
matched but the tail fails, retry with group 1 empty). -/
def tryCreate (tok : List Char) (s : List Char) : Option (List Char × List Char) :=
  match matchCI "create".data s with
  | none => none
  | some r0 =>
    match matchWs1 r0 with
    | none => none
    | some (_, r1) =>
      let viaG1 :=
        match orReplace r1 with
        | none => none
        | some (g1, rg) =>
          match tryCreateTail rg with
          | none => none
          | some (g2, g3, r3) => some (g1, g2, g3, r3)
      match viaG1 with
      | some (g1, g2, g3, r3) =>
        some ("CREATE ".data ++ g1 ++ g2 ++ [' '] ++ tok ++ '_' :: g3, r3)
      | none =>
        match tryCreateTail r1 with
        | none => none
        | some (g2, g3, r3) =>
          some ("CREATE ".data ++ g2 ++ [' '] ++ tok ++ '_' :: g3, r3)

/-- Boolean list prelude test (JS `startsWith` on character lists). -/
def isPrefOf : List Char → List Char → Bool
  | [], _ => true
  | _ :: _, [] => false
  | a :: as, b :: bs => a == b && isPrefOf as bs

/-- The allow-list of the reference rewrite (lower-cased names that must never
be namespaced). -/
def allowList : List (List Char) :=
  ["dual".data, "user_tables".data, "all_tables".data, "user_types".data, "all_types".data]

/-- Keyword alternation `(FROM|JOIN|INTO|TABLE\s+OF|REF)` with captured text;
the alternatives are first-character disjoint, so order is immaterial to
which can match, but JS order is kept. -/
def refAlt (s : List Char) : Option (List Char × List Char) :=
  match matchCI "from".data s with
  | some r => some (s.take 4, r)
  | none =>
  match matchCI "join".data s with
  | some r => some (s.take 4, r)
  | none =>
  match matchCI "into".data s with
  | some r => some (s.take 4, r)
  | none =>
  match (match matchCI "table".data s with
         | none => none
         | some r1 =>
           match matchWs1 r1 with
           | none => none
           | some (_, r2) =>
             match matchCI "of".data r2 with
             | none => none
             | some r3 => some (s.take (s.length - r3.length), r3)) with
  | some (g, r) => some (g, r)
  | none =>
  match matchCI "ref".data s with
  | some r => some (s.take 3, r)
  | none => none

/-- `dropWhile` never lengthens a list. -/
theorem dropWhile_length_le (p : Char → Bool) : ∀ l : List Char, (l.dropWhile p).length ≤ l.length := by
  intro l
  induction l with
  | nil => simp
  | cons c cs ih =>
    by_cases h : p c
    · simp [List.dropWhile, h]; omega
    · simp [List.dropWhile, h]

/-- A successful case-insensitive literal match consumes exactly the literal. -/
theorem matchCI_drop (p : List Char) : ∀ s r, matchCI p s = some r → r = s.drop p.length := by
  induction p with
  | nil => intro s r h; simp [matchCI] at h; simp [h]
  | cons p ps ih =>
    intro s r h
    cases s with
    | nil => simp [matchCI] at h
    | cons c cs =>
      by_cases hc : lc c = lc p
      · simp [matchCI, hc] at h
        simpa using ih cs r h
      · simp [matchCI, hc] at h

theorem matchCI_le {p s r : List Char} (h : matchCI p s = some r) : r.length ≤ s.length := by
  have := matchCI_drop p s r h
  subst this; simp

theorem matchCI_lt {p s r : List Char} (hp : p ≠ []) (h : matchCI p s = some r) :
    r.length < s.length := by
  have hd := matchCI_drop p s r h
  cases p with
  | nil => exact absurd rfl hp
  | cons a as =>
    cases s with
    | nil => simp [matchCI] at h
    | cons c cs => subst hd; simp; omega

theorem matchWs1_lt {s : List Char} {w r : List Char} (h : matchWs1 s = some (w, r)) :
    r.length < s.length := by
  cases s with
  | nil => simp [matchWs1] at h
  | cons c cs =>
    by_cases hc : jsIsSpace c
    · simp [matchWs1, hc] at h
      obtain ⟨-, h2⟩ := h
      have hle : (cs.dropWhile jsIsSpace).length ≤ cs.length := dropWhile_length_le _ cs
      subst h2; simp only [List.length_cons]; omega
    · simp [matchWs1, hc] at h

theorem matchWord1_lt {s : List Char} {w r : List Char} (h : matchWord1 s = some (w, r)) :
    r.length < s.length := by
  cases s with
  | nil => simp [matchWord1] at h
  | cons c cs =>
    by_cases hc : isWordChar c
    · simp [matchWord1, hc] at h
      obtain ⟨-, h2⟩ := h
      have hle : (cs.dropWhile isWordChar).length ≤ cs.length := dropWhile_length_le _ cs
      subst h2; simp only [List.length_cons]; omega
    · simp [matchWord1, hc] at h

theorem orReplace_le {s g r : List Char} (h : orReplace s = some (g, r)) :
    r.length ≤ s.length := by
  unfold orReplace at h
  cases h1 : matchCI "or".data s with
  | none => simp [h1] at h
  | some r1 =>
    simp [h1] at h
    cases h2 : matchWs1 r1 with
    | none => simp [h2] at h
    | some p2 =>
      simp [h2] at h
      cases h3 : matchCI "replace".data p2.2 with
      | none => simp [h3] at h
      | some r3 =>
        simp [h3] at h
        cases h4 : matchWs1 r3 with
        | none => simp [h4] at h
        | some p4 =>
          simp [h4] at h
          have e1 := matchCI_le h1
          have e2 := matchWs1_lt (s := r1) (w := p2.1) (r := p2.2) (by simpa using h2)
          have e3 := matchCI_le h3
          have e4 := matchWs1_lt (s := r3) (w := p4.1) (r := p4.2) (by simpa using h4)
          have : r = p4.2 := by
            have := h.2
            simp [← this]
          subst this
          omega

theorem tvvAlt_lt {s g r : List Char} (h : tvvAlt s = some (g, r)) :
    r.length < s.length := by
  unfold tvvAlt at h
  cases h1 : matchCI "table".data s with
  | some r1 => simp [h1] at h; obtain ⟨-, h2⟩ := h; subst h2; exact matchCI_lt (by decide) h1
  | none =>
    simp [h1] at h
    cases h2 : matchCI "type".data s with
    | some r2 => simp [h2] at h; obtain ⟨-, h3⟩ := h; subst h3; exact matchCI_lt (by decide) h2
    | none =>
      simp [h2] at h
      cases h3 : matchCI "view".data s with
      | some r3 => simp [h3] at h; obtain ⟨-, h4⟩ := h; subst h4; exact matchCI_lt (by decide) h3
      | none => simp [h3] at h

theorem tryCreateTail_lt {r a b r3 : List Char} (h : tryCreateTail r = some (a, b, r3)) :
    r3.length < r.length := by
  unfold tryCreateTail at h
  cases h1 : tvvAlt r with
  | none => simp [h1] at h
  | some p1 =>
    simp [h1] at h
    cases h2 : matchWs1 p1.2 with
    | none => simp [h2] at h
    | some p2 =>
      simp [h2] at h
      by_cases hl : lookIfNotExists p2.2
      · simp [hl] at h
      · simp [hl] at h
        cases h3 : matchWord1 p2.2 with
        | none => simp [h3] at h
        | some p3 =>
          simp [h3] at h
          have e1 : p1.2.length < r.length := tvvAlt_lt (g := p1.1) (by simpa using h1)
          have e2 : p2.2.length < p1.2.length :=
            matchWs1_lt (w := p2.1) (by simpa using h2)
          have e3 : p3.2.length < p2.2.length :=
            matchWord1_lt (w := p3.1) (by simpa using h3)
          have : r3 = p3.2 := by rw [h.2]
          subst this
          omega

theorem tryCreate_lt {tok s repl rest : List Char} (h : tryCreate tok s = some (repl, rest)) :
    rest.length < s.length := by
  unfold tryCreate at h
  cases h1 : matchCI "create".data s with
  | none => simp [h1] at h
  | some r0 =>
    simp [h1] at h
    cases h2 : matchWs1 r0 with
    | none => simp [h2] at h
    | some p2 =>
      simp [h2] at h
      have e1 : r0.length < s.length := matchCI_lt (by decide) h1
      have e2 : p2.2.length < r0.length := matchWs1_lt (w := p2.1) (by simpa using h2)
      cases hg : orReplace p2.2 with
      | some pg =>
        simp [hg] at h
        cases ht : tryCreateTail pg.2 with
        | some pt =>
          simp [ht] at h
          have e3 : pg.2.length ≤ p2.2.length := orReplace_le (g := pg.1) (by simpa using hg)
          have e4 : pt.2.2.length < pg.2.length :=
            tryCreateTail_lt (a := pt.1) (b := pt.2.1) (by simpa using ht)
          have : rest = pt.2.2 := by rw [← h.2]
          subst this; omega
        | none =>
          simp [ht] at h
          cases ht2 : tryCreateTail p2.2 with
          | none => simp [ht2] at h
          | some pt2 =>
            simp [ht2] at h
            have e4 : pt2.2.2.length < p2.2.length :=
              tryCreateTail_lt (a := pt2.1) (b := pt2.2.1) (by simpa using ht2)
            have : rest = pt2.2.2 := by rw [← h.2]
            subst this; omega
      | none =>
        simp [hg] at h
        cases ht2 : tryCreateTail p2.2 with
        | none => simp [ht2] at h
        | some pt2 =>
          simp [ht2] at h
          have e4 : pt2.2.2.length < p2.2.length :=
            tryCreateTail_lt (a := pt2.1) (b := pt2.2.1) (by simpa using ht2)
          have : rest = pt2.2.2 := by rw [← h.2]
          subst this; omega

/-- Try `/\b(FROM|JOIN|INTO|TABLE\s+OF|REF)\s+(\w+)/i` at the head of `s`.
`prevWord` says whether the character before `s` is a word character (the
`\b` test; every keyword starts with a letter).  On a match the replacer
callback runs: an already-prefixed or allow-listed name returns the matched
text unchanged, otherwise `${keyword} ${tok}_${name}`. -/
def tryRef (tok : List Char) (prevWord : Bool) (s : List Char) : Option (List Char × List Char) :=
  if prevWord then none
  else
    match refAlt s with
    | none => none
    | some (g1, r1) =>
      match matchWs1 r1 with
      | none => none
      | some (_, r2) =>
        match matchWord1 r2 with
        | none => none
        | some (name, r3) =>
          if isPrefOf (tok ++ ['_']) name || allowList.contains (name.map lc) then
            some (s.take (s.length - r3.length), r3)
          else
            some (g1 ++ ' ' :: tok ++ '_' :: name, r3)

theorem refAlt_lt {s g r : List Char} (h : refAlt s = some (g, r)) :
    r.length < s.length := by
  unfold refAlt at h
  cases h1 : matchCI "from".data s with
  | some r1 => simp [h1] at h; obtain ⟨-, h2⟩ := h; subst h2; exact matchCI_lt (by decide) h1
  | none =>
  simp only [h1] at h
  cases h2 : matchCI "join".data s with
  | some r2 => simp [h2] at h; obtain ⟨-, h3⟩ := h; subst h3; exact matchCI_lt (by decide) h2
  | none =>
  simp only [h2] at h
  cases h3 : matchCI "into".data s with
  | some r3 => simp [h3] at h; obtain ⟨-, h4⟩ := h; subst h4; exact matchCI_lt (by decide) h3
  | none =>
  simp only [h3] at h
  cases h4 : matchCI "table".data s with
  | some r4 =>
    simp only [h4] at h
    cases h5 : matchWs1 r4 with
    | none =>
      simp only [h5] at h
      cases h6 : matchCI "ref".data s with
      | some r6 => simp [h6] at h; obtain ⟨-, h7⟩ := h; subst h7; exact matchCI_lt (by decide) h6
      | none => simp [h6] at h
    | some p5 =>
      simp only [h5] at h
      cases h6 : matchCI "of".data p5.2 with
      | some r6 =>
        simp [h6] at h
        obtain ⟨-, h7⟩ := h
        subst h7
        have e1 := matchCI_lt (p := "table".data) (by decide) h4
        have e2 := matchWs1_lt (w := p5.1) (by simpa using h5)
        have e3 := matchCI_lt (p := "of".data) (by decide) h6
        omega
      | none =>
        simp only [h6] at h
        cases h7 : matchCI "ref".data s with
        | some r7 => simp [h7] at h; obtain ⟨-, h8⟩ := h; subst h8; exact matchCI_lt (by decide) h7
        | none => simp [h7] at h
  | none =>
  simp only [h4] at h
  cases h5 : matchCI "ref".data s with
  | some r5 => simp [h5] at h; obtain ⟨-, h6⟩ := h; subst h6; exact matchCI_lt (by decide) h5
  | none => simp [h5] at h

theorem tryRef_lt {tok : List Char} {pw : Bool} {s repl rest : List Char}
    (h : tryRef tok pw s = some (repl, rest)) : rest.length < s.length := by
  unfold tryRef at h
  by_cases hp : pw
  · simp [hp] at h
  · simp only [hp, if_neg, Bool.false_eq_true, not_false_eq_true, if_false] at h
    cases h1 : refAlt s with
    | none => simp [h1] at h
    | some p1 =>
      simp only [h1] at h
      cases h2 : matchWs1 p1.2 with
      | none => simp [h2] at h
      | some p2 =>
        simp only [h2] at h
        cases h3 : matchWord1 p2.2 with
        | none => simp [h3] at h
        | some p3 =>
          simp only [h3] at h
          have e1 : p1.2.length < s.length := refAlt_lt (g := p1.1) (by simpa using h1)
          have e2 : p2.2.length < p1.2.length := matchWs1_lt (w := p2.1) (by simpa using h2)
          have e3 : p3.2.length < p2.2.length := matchWord1_lt (w := p3.1) (by simpa using h3)
          by_cases hskip : (isPrefOf (tok ++ ['_']) p3.1 || allowList.contains (List.map lc p3.1)) = true
          · rw [if_pos hskip] at h
            simp only [Option.some.injEq, Prod.mk.injEq] at h
            obtain ⟨-, h'⟩ := h
            subst h'; omega
          · rw [if_neg hskip] at h
            simp only [Option.some.injEq, Prod.mk.injEq] at h
            obtain ⟨-, h'⟩ := h
            subst h'; omega

/-- Global replace with the CREATE regex, with explicit fuel so that the
definition is structurally recursive (and hence kernel-computable).  A match
always consumes at least one character, so `fuel = s.length` suffices; the
fuel-exhausted branch is unreachable under that call pattern. -/
def createScanAux (tok : List Char) : Nat → List Char → List Char
  | _, [] => []
  | 0, c :: cs => c :: cs
  | fuel + 1, c :: cs =>
    match tryCreate tok (c :: cs) with
    | some (repl, rest) => repl ++ createScanAux tok fuel rest
    | none => c :: createScanAux tok fuel cs

/-- Global replace with the CREATE regex (first `stmt.replace` of
`resetEnvironment`, line 275): scan left to right; on a match emit the
replacement and continue after the matched text, otherwise copy one
character. -/
def createScan (tok s : List Char) : List Char := createScanAux tok s.length s

theorem createScanAux_irrel (tok : List Char) :
    ∀ (f1 f2 : Nat) (s : List Char), s.length ≤ f1 → s.length ≤ f2 →
      createScanAux tok f1 s = createScanAux tok f2 s := by
  intro f1
  induction f1 with
  | zero =>
    intro f2 s hs1 _
    have : s = [] := List.length_eq_zero.mp (Nat.le_zero.mp hs1)
    subst this
    cases f2 <;> rfl
  | succ f1 ih =>
    intro f2 s hs1 hs2
    cases s with
    | nil => cases f2 <;> rfl
    | cons c cs =>
      cases f2 with
      | zero => simp at hs2
      | succ f2 =>
        cases h : tryCreate tok (c :: cs) with
        | some p =>
          obtain ⟨repl, rest⟩ := p
          have hlt : rest.length < cs.length + 1 := by
            simpa using tryCreate_lt h
          simp only [createScanAux, h]
          rw [ih f2 rest (by simp at hs1; omega) (by simp at hs2; omega)]
        | none =>
          simp only [createScanAux, h]
          rw [ih f2 cs (by simp at hs1; omega) (by simp at hs2; omega)]

theorem createScanAux_fuel (tok : List Char) (fuel : Nat) (s : List Char)
    (hs : s.length ≤ fuel) : createScanAux tok fuel s = createScan tok s :=
  createScanAux_irrel tok fuel s.length s hs le_rfl

theorem createScan_nil (tok : List Char) : createScan tok [] = [] := rfl

theorem createScan_match {tok repl rest : List Char} {c : Char} {cs : List Char}
    (h : tryCreate tok (c :: cs) = some (repl, rest)) :
    createScan tok (c :: cs) = repl ++ createScan tok rest := by
  show createScanAux tok (cs.length + 1) (c :: cs) = _
  have hlt : rest.length < cs.length + 1 := by simpa using tryCreate_lt h
  simp only [createScanAux, h]
  rw [createScanAux_fuel tok cs.length rest (by omega)]

theorem createScan_skip {tok : List Char} {c : Char} {cs : List Char}
    (h : tryCreate tok (c :: cs) = none) :
    createScan tok (c :: cs) = c :: createScan tok cs := by
  show createScanAux tok (cs.length + 1) (c :: cs) = _
  simp only [createScanAux, h]
  rw [createScanAux_fuel tok cs.length cs (by omega)]

/-- Fueled scanner for the reference regex; `prevWord` tracks whether the
previous original character is a word character (the `\b` context).  After a
match it is `true`: a match always ends in a `\w` character of the original
text. -/
def refScanAux (tok : List Char) : Nat → Bool → List Char → List Char
  | _, _, [] => []
  | 0, _, c :: cs => c :: cs
  | fuel + 1, prevWord, c :: cs =>
    match tryRef tok prevWord (c :: cs) with
    | some (repl, rest) => repl ++ refScanAux tok fuel true rest
    | none => c :: refScanAux tok fuel (isWordChar c) cs

/-- Global replace with the reference regex (second `stmt.replace`, line 279). -/
def refScan (tok : List Char) (prevWord : Bool) (s : List Char) : List Char :=
  refScanAux tok s.length prevWord s

theorem refScanAux_irrel (tok : List Char) :
    ∀ (f1 f2 : Nat) (pw : Bool) (s : List Char), s.length ≤ f1 → s.length ≤ f2 →
      refScanAux tok f1 pw s = refScanAux tok f2 pw s := by
  intro f1
  induction f1 with
  | zero =>
    intro f2 pw s hs1 _
    have : s = [] := List.length_eq_zero.mp (Nat.le_zero.mp hs1)
    subst this
    cases f2 <;> rfl
  | succ f1 ih =>
    intro f2 pw s hs1 hs2
    cases s with
    | nil => cases f2 <;> rfl
    | cons c cs =>
      cases f2 with
      | zero => simp at hs2
      | succ f2 =>
        cases h : tryRef tok pw (c :: cs) with
        | some p =>
          obtain ⟨repl, rest⟩ := p
          have hlt : rest.length < cs.length + 1 := by
            simpa using tryRef_lt h
          simp only [refScanAux, h]
          rw [ih f2 true rest (by simp at hs1; omega) (by simp at hs2; omega)]
        | none =>
          simp only [refScanAux, h]
          rw [ih f2 (isWordChar c) cs (by simp at hs1; omega) (by simp at hs2; omega)]

theorem refScanAux_fuel (tok : List Char) (fuel : Nat) (pw : Bool) (s : List Char)
    (hs : s.length ≤ fuel) : refScanAux tok fuel pw s = refScan tok pw s :=
  refScanAux_irrel tok fuel s.length pw s hs le_rfl

theorem refScan_nil (tok : List Char) (pw : Bool) : refScan tok pw [] = [] := rfl

theorem refScan_match {tok repl rest : List Char} {pw : Bool} {c : Char} {cs : List Char}
    (h : tryRef tok pw (c :: cs) = some (repl, rest)) :
    refScan tok pw (c :: cs) = repl ++ refScan tok true rest := by
  show refScanAux tok (cs.length + 1) pw (c :: cs) = _
  have hlt : rest.length < cs.length + 1 := by simpa using tryRef_lt h
  simp only [refScanAux, h]
  rw [refScanAux_fuel tok cs.length true rest (by omega)]

theorem refScan_skip {tok : List Char} {pw : Bool} {c : Char} {cs : List Char}
    (h : tryRef tok pw (c :: cs) = none) :
    refScan tok pw (c :: cs) = c :: refScan tok (isWordChar c) cs := by
  show refScanAux tok (cs.length + 1) pw (c :: cs) = _
  simp only [refScanAux, h]
  rw [refScanAux_fuel tok cs.length (isWordChar c) cs (by omega)]

/-- The per-statement namespacing rewrite of `resetEnvironment`
(lines 275–286): the CREATE replacement, then the reference replacement, with
the sanitized session token. -/
def namespaceStatementL (tok s : List Char) : List Char :=
  refScan tok false (createScan tok s)

/-- `namespaceStatement` at the `String` level (spec §6 exposes this as
`namespaceStatement(text, sessionToken)`). -/
def namespaceStatement (s t : String) : String :=
  ⟨namespaceStatementL t.data s.data⟩

example :
    namespaceStatement "CREATE TABLE employees (id INT)" "alice_1"
      = "CREATE TABLE alice_1_employees (id INT)" := by decide

example :
    namespaceStatement "SELECT * FROM employees" "alice_1"
      = "SELECT * FROM alice_1_employees" := by decide

example :
    namespaceStatement "SELECT * FROM dual" "alice_1" = "SELECT * FROM dual" := by decide

example :
    namespaceStatement "SELECT * FROM alice_1_employees" "alice_1"
      = "SELECT * FROM alice_1_employees" := by decide

example :
    namespaceStatement "INSERT INTO employees VALUES (1)" "bob_1"
      = "INSERT INTO bob_1_employees VALUES (1)" := by decide

/-! ## The statement splitter (`splitOracleStatements`, lines 307–378) -/

/-- ASCII `toUpperCase` on a character list. -/
def ucL (l : List Char) : List Char := l.map ucChar

/-- List-level suffix test (JS `endsWith`). -/
def isSuffOf (p l : List Char) : Bool := isPrefOf p.reverse l.reverse

/-- ECMAScript LineTerminator (LF, CR, LS U+2028, PS U+2029): in a multiline
regex, `^` matches at the input start and right after any of these, and `.`
matches every character except these. -/
def isLineTerm (c : Char) : Bool :=
  c.toNat == 10 || c.toNat == 13 || c.toNat == 8232 || c.toNat == 8233

/-- One `^([A-Za-z].+)` match attempt at a segment start (lines 309–314).
A segment is a maximal run of non-terminator characters; it matches iff its
first character is an ASCII letter and it has at least two characters
(`.+` needs one more).  The callback returns the match unchanged when its
trimmed form starts with `--`, `/` or `*` — impossible here, since the
trimmed match still starts with that letter — and otherwise produces
`-- <match>`. -/
def commentizeSeg (seg : List Char) : List Char :=
  match seg with
  | c :: _ :: _ =>
    if isAsciiLetter c then
      if isPrefOf "--".data (jsTrimL seg) || isPrefOf "/".data (jsTrimL seg)
          || isPrefOf "*".data (jsTrimL seg) then seg
      else "-- ".data ++ seg
    else seg
  | _ => seg

/-- The comment-conversion pass `script.replace(/^([A-Za-z].+)/gm, ...)`
restricted to one `\n`-line of the script: the multiline `^` restarts not
only after `\n` but after every LineTerminator, so a line holding a bare
`\r` (or LS/PS) is processed segment by segment between those terminators.
Structured on fuel so the kernel evaluates it; `commentizeLine` supplies
ample fuel. -/
def commentizeAux : Nat → List Char → List Char
  | 0, s => s
  | fuel + 1, s =>
    match s.dropWhile (fun c => !(isLineTerm c)) with
    | [] => commentizeSeg s
    | t :: rest =>
      commentizeSeg (s.takeWhile fun c => !(isLineTerm c)) ++ t :: commentizeAux fuel rest

def commentizeLine (l : List Char) : List Char := commentizeAux (l.length + 1) l

/-- Does this maximal non-terminator segment match `[A-Za-z].+`: an ASCII
letter at the segment start with at least one further character? -/
def segMatches : List Char → Bool
  | c :: _ :: _ => isAsciiLetter c
  | _ => false

/-- Does `^([A-Za-z].+)` (multiline) find a match inside this `\n`-line —
at the line start or just after one of the line's remaining terminators? -/
def lineMatchAux : Nat → List Char → Bool
  | 0, _ => false
  | fuel + 1, s =>
    match s.dropWhile (fun c => !(isLineTerm c)) with
    | [] => segMatches s
    | _ :: rest =>
      segMatches (s.takeWhile fun c => !(isLineTerm c)) || lineMatchAux fuel rest

def lineHasMatch (l : List Char) : Bool := lineMatchAux (l.length + 1) l

/-- The anchored prefix test
`/^\s*CREATE\s+(OR\s+REPLACE\s+)?(PROCEDURE|FUNCTION|TRIGGER|PACKAGE|TYPE)/i`
(line 342), applied to the upper-cased trimmed line.  `^\s*` then `CREATE`,
`\s+`, optional `OR\s+REPLACE\s+` (with JS backtracking to the empty group),
then the keyword alternation (first-character disjoint). -/
def plsqlKw (s : List Char) : Bool :=
  (matchCI "procedure".data s).isSome || (matchCI "function".data s).isSome ||
  (matchCI "trigger".data s).isSome || (matchCI "package".data s).isSome ||
  (matchCI "type".data s).isSome

def matchCreateProcHead (l : List Char) : Bool :=
  let afterWs := l.dropWhile jsIsSpace
  match matchCI "create".data afterWs with
  | none => false
  | some r0 =>
    match matchWs1 r0 with
    | none => false
    | some (_, r1) =>
      (match orReplace r1 with
       | some (_, rg) => plsqlKw rg
       | none => false) || plsqlKw r1

/-- The scan state of the line loop (lines 316–319). -/
structure SplitState where
  stmts : List (List Char)
  curr : List Char
  inPLSQL : Bool
  slashPending : Bool
deriving DecidableEq, Repr

/-- One iteration of the `for` loop over lines (lines 323–364). -/
def splitStep (st : SplitState) (rawLine : List Char) : SplitState :=
  let line := jsTrimL rawLine
  if line = [] then st
  else if line = ['/'] ∧ st.slashPending then
    { stmts := st.stmts ++ [jsTrimL st.curr], curr := [],
      inPLSQL := false, slashPending := false }
  else
    let up := ucL line
    let inP := st.inPLSQL || isPrefOf "BEGIN".data up || isPrefOf "DECLARE".data up
                || matchCreateProcHead up
    let curr1 := if line = ['/'] then st.curr else st.curr ++ line ++ ['\n']
    if line = ['/'] then
      if jsTrimL curr1 ≠ [] then
        { stmts := st.stmts ++ [jsTrimL curr1], curr := [],
          inPLSQL := false, slashPending := st.slashPending }
      else
        { stmts := st.stmts, curr := [], inPLSQL := false, slashPending := st.slashPending }
    else if !inP && isSuffOf ";".data line then
      { stmts := st.stmts ++ [jsTrimL curr1], curr := [],
        inPLSQL := inP, slashPending := st.slashPending }
    else if inP && isSuffOf "END;".data up then
      { stmts := st.stmts, curr := curr1, inPLSQL := inP, slashPending := true }
    else
      { stmts := st.stmts, curr := curr1, inPLSQL := inP, slashPending := st.slashPending }

/-- A statement is dropped if every line is blank or starts with `--` after
trimming (lines 371–377). -/
def isCommentOnly (stmt : List Char) : Bool :=
  (((splitSep '\n' stmt).filter fun l => !(isPrefOf "--".data (jsTrimL l))).filter
      fun l => jsTrimL l ≠ []).isEmpty

/-- `splitOracleStatements(script)` (lines 307–378) at the character-list
level. -/
def splitOracleL (script : List Char) : List (List Char) :=
  let lines := (splitSep '\n' script).map commentizeLine
  let fin := lines.foldl splitStep ⟨[], [], false, false⟩
  let all := if jsTrimL fin.curr ≠ [] then fin.stmts ++ [jsTrimL fin.curr] else fin.stmts
  all.filter fun stmt => !isCommentOnly stmt

/-- `splitOracleStatements` at the `String` level. -/
def splitOracleStatements (script : String) : List String :=
  (splitOracleL script.data).map fun l => ⟨l⟩

-- A letter-starting line is converted to a comment and then filtered out:
example : splitOracleStatements "CREATE TABLE t (id INT);" = [] := by decide

-- Multiline ^ also matches after a bare CR, so the segment after the CR is
-- commentized even though the \n-line itself starts with a space:
example : splitOracleStatements "  foo\rbar" = ["foo\r-- bar"] := by decide

-- Indented statements survive and are split at line-final semicolons:
example :
    splitOracleStatements "  CREATE TABLE t (id INT);\n  INSERT INTO t VALUES (1);"
      = ["CREATE TABLE t (id INT);", "INSERT INTO t VALUES (1);"] := by decide

-- A PL/SQL block is closed by END; plus a standalone slash:
example :
    splitOracleStatements "  BEGIN\n  x := 1;\n  END;\n/"
      = ["BEGIN\nx := 1;\nEND;"] := by decide

-- No terminators at all (and no column-0 letters): one statement:
example :
    splitOracleStatements "  SELECT 1\n  FROM dual" = ["SELECT 1\nFROM dual"] := by decide

/-! ## Concrete backends used by witnesses and counterexamples -/

/-- A concrete backend over `Nat` states: the statement `"BAD"` fails with an
ORA-00942-style error, anything else succeeds and bumps the state. -/
def demoB : Backend Nat :=
  { exec := fun s n =>
      if jsTrimS s = "BAD" then .error ⟨"ORA-00942: table or view does not exist", 942⟩
      else .ok ({ rowsAffected := some 1 }, n + 1),
    parse := fun q =>
      if jsTrimS q = "" then .ok (some "ORA-00900: invalid SQL statement") else .ok none }

/-- A backend whose `pool.getConnection()` always throws. -/
def demoAcqFail : Backend Nat :=
  { acquireErr := some ⟨"ORA-12170: TNS:Connect timeout occurred", 12170⟩,
    exec := fun _ n => .ok ({}, n) }

/-- A backend that returns a row set and column metadata for every statement. -/
def demoRowsB : Backend Nat :=
  { exec := fun _ n =>
      .ok ({ rowsAffected := none, rows := some [[1], [2]], metaData := some ["ID"] }, n + 1) }

/-! ## C10 — empty-query guard of `executeQuery` -/

/-- C10: for every query that is empty or whitespace only, `executeQuery`
returns `{success:false, error:"Empty query"}`, leaves the backend state
unchanged, and attempts nothing against the backend (empty trace). -/
theorem executeQuery_empty_query {σ : Type} (B : Backend σ) (s0 : σ) (q : String)
    (sid : Option String) (h : jsTrimS q = "") :
    executeQuery B s0 q sid =
      { res := { success := false, error := some "Empty query" }, state := s0, trace := [] } := by
  simp [executeQuery, h]

theorem executeQuery_empty_query_witness :
    jsTrimS " \t\n " = "" ∧
    executeQuery demoB 0 " \t\n " (some "alice_1") =
      { res := { success := false, error := some "Empty query" }, state := 0, trace := [] } :=
  ⟨by decide, executeQuery_empty_query demoB 0 " \t\n " (some "alice_1") (by decide)⟩

/-! ## C5 — the session-identifier sanitizer -/

/-- C5 counterexample: the token is NOT computed by stripping characters
outside `[A-Za-z0-9_]` — the code replaces each of them with `'_'`:
on `"a-b"` the code yields `"a_b"` while stripping would yield `"ab"`. -/
theorem safeSessionId_is_not_strip :
    safeSessionIdL "a-b".data ≠ specSanitizeToken "a-b".data ∧
    safeSessionIdL "a-b".data = "a_b".data ∧
    specSanitizeToken "a-b".data = "ab".data := by decide

/-- C5 amended: the token is computed by REPLACING every character outside
`[A-Za-z0-9_]` with `'_'` and truncating to 20 characters; for every
NON-EMPTY session identifier the result matches `^[A-Za-z0-9_]{1,20}$`
(the empty identifier yields the empty token). -/
theorem safeSessionId_shape (l : List Char) (h : l ≠ []) :
    1 ≤ (safeSessionIdL l).length ∧ (safeSessionIdL l).length ≤ 20 ∧
      ∀ c ∈ safeSessionIdL l, isWordChar c = true := by
  refine ⟨?_, ?_, ?_⟩
  · have hp : 0 < l.length := List.length_pos.mpr h
    simp [safeSessionIdL]
    omega
  · simp [safeSessionIdL]
  · intro c hc
    have hc2 : c ∈ (l.map fun c => if isWordChar c then c else '_') :=
      List.mem_of_mem_take hc
    obtain ⟨a, -, ha⟩ := List.mem_map.mp hc2
    by_cases hw : isWordChar a
    · rw [← ha]; simp [hw]
    · rw [← ha]; simp [hw]; decide

theorem safeSessionId_shape_witness :
    "bob@2".data ≠ ([] : List Char) ∧
    (1 ≤ (safeSessionIdL "bob@2".data).length ∧ (safeSessionIdL "bob@2".data).length ≤ 20 ∧
      ∀ c ∈ safeSessionIdL "bob@2".data, isWordChar c = true) :=
  ⟨by decide, safeSessionId_shape "bob@2".data (by decide)⟩

/-! ## C7 — `validateQuery` -/

/-- The validation result as spec §4.5 words it: a backend parse success maps
to `{valid:true}`, any parse failure (including the parse call itself
throwing) maps to `{valid:false, error:<message>}`.  This definition follows
the spec's words and is compared against the implementation. -/
def specValidate {σ : Type} (B : Backend σ) (q : String) : ValResult :=
  match B.parse q with
  | .ok none => { valid := true, error := none }
  | .ok (some m) => { valid := false, error := some m }
  | .error e => { valid := false, error := some e.message }

/-- C7: for every query, `validateQuery` returns `{valid:true}` iff the
backend parse succeeds and `{valid:false, error:<message>}` otherwise, and it
never changes the backend state (the parse facility is modelled per spec
§4.5 as effect-free; whether Oracle's `DBMS_SQL.PARSE` really is effect-free
for DDL lies outside the repository). -/
theorem validateQuery_parse_only {σ : Type} (B : Backend σ) (s0 : σ) (q : String)
    (hacq : B.acquireErr = none) :
    (validateQuery B s0 q).res = specValidate B q ∧ (validateQuery B s0 q).state = s0 := by
  unfold validateQuery specValidate
  rw [hacq]
  cases B.parse q with
  | error e => exact ⟨rfl, rfl⟩
  | ok o => cases o <;> exact ⟨rfl, rfl⟩

theorem validateQuery_parse_only_witness :
    demoB.acquireErr = none ∧
    ((validateQuery demoB 0 "SELEKT 1").res = specValidate demoB "SELEKT 1" ∧
      (validateQuery demoB 0 "SELEKT 1").state = 0) :=
  ⟨rfl, validateQuery_parse_only demoB 0 "SELEKT 1" rfl⟩

/-! ## C4 — session isolation is not applied by `executeQuery` -/

/-- C4: `executeQuery` accepts a session identifier but never invokes the
session namespacer: two sessions submitting `CREATE TABLE employees (id INT)`
both execute the raw statement (identical physical table name, a collision),
even though the rewrite of `resetEnvironment` would have produced the two
distinct prefixed names. -/
theorem executeQuery_ignores_sessionId :
    execArgs (executeQuery demoB 0 "CREATE TABLE employees (id INT)" (some "alice_1")).trace
        = ["CREATE TABLE employees (id INT)"] ∧
    execArgs (executeQuery demoB 0 "CREATE TABLE employees (id INT)" (some "bob_1")).trace
        = ["CREATE TABLE employees (id INT)"] ∧
    namespaceStatement "CREATE TABLE employees (id INT)" "alice_1"
        = "CREATE TABLE alice_1_employees (id INT)" ∧
    namespaceStatement "CREATE TABLE employees (id INT)" "bob_1"
        = "CREATE TABLE bob_1_employees (id INT)" := by decide

/-! ## C2 — adhoc mode (`executeQuery`) error-handling policy -/

/-- The adhoc loop attempts every non-blank trimmed statement (failures do not
stop it), records each with its trimmed text, marks failures with an error
message, and emits only exec/commit events. -/
theorem adhocLoop_spec {σ : Type} (B : Backend σ) :
    ∀ (stmts : List String) (st : σ),
      execArgs (adhocLoop B stmts st).2.2
          = (stmts.filter fun s => jsTrimS s ≠ "").map (fun s => jsTrimS s)
      ∧ (adhocLoop B stmts st).1.map (·.statement)
          = (stmts.filter fun s => jsTrimS s ≠ "").map (fun s => jsTrimS s)
      ∧ (∀ x ∈ (adhocLoop B stmts st).1, x.success = false → x.error.isSome = true)
      ∧ (∀ e ∈ (adhocLoop B stmts st).2.2, e ≠ Ev.acquire ∧ e ≠ Ev.release) := by
  intro stmts
  induction stmts with
  | nil => intro st; refine ⟨rfl, rfl, by simp [adhocLoop], by simp [adhocLoop, execArgs]⟩
  | cons stmt rest ih =>
    intro st
    by_cases h : jsTrimS stmt = ""
    · simpa [adhocLoop, h, List.filter_cons] using ih st
    · cases hx : B.exec (jsTrimS stmt) st with
      | ok p =>
        obtain ⟨out, st1⟩ := p
        have := ih st1
        simp [adhocLoop, h, hx, List.filter_cons, execArgs] at this ⊢
        exact ⟨this.1, this.2.1, this.2.2.1, this.2.2.2⟩
      | error e =>
        have := ih st
        simp [adhocLoop, h, hx, List.filter_cons, execArgs] at this ⊢
        exact ⟨this.1, this.2.1, this.2.2.1, this.2.2.2⟩

/-- C2 amended: provided the pooled connection is acquired successfully (and
the script is non-blank, so the empty-query guard does not fire), every
non-blank statement of the split script is attempted in order regardless of
earlier failures, each outcome is recorded per statement (failures with an
error message), and the overall success flag is true iff every executed
statement succeeded. -/
theorem executeQuery_adhoc_policy {σ : Type} (B : Backend σ) (s0 : σ) (q : String)
    (sid : Option String) (hacq : B.acquireErr = none) (hq : jsTrimS q ≠ "") :
    execArgs (executeQuery B s0 q sid).trace
        = ((jsSplit ';' q).filter fun s => jsTrimS s ≠ "").map (fun s => jsTrimS s)
    ∧ ∃ rs, (executeQuery B s0 q sid).res.results = some rs
        ∧ rs.map (·.statement)
            = ((jsSplit ';' q).filter fun s => jsTrimS s ≠ "").map (fun s => jsTrimS s)
        ∧ ((executeQuery B s0 q sid).res.success = true ↔ ∀ x ∈ rs, x.success = true)
        ∧ (∀ x ∈ rs, x.success = false → x.error.isSome = true) := by
  have hloop := adhocLoop_spec B ((jsSplit ';' q).filter fun s => jsTrimS s ≠ "") s0
  have hff : (((jsSplit ';' q).filter fun s => jsTrimS s ≠ "").filter fun s => jsTrimS s ≠ "")
      = (jsSplit ';' q).filter fun s => jsTrimS s ≠ "" := by
    simp [List.filter_filter]
  rw [hff] at hloop
  unfold executeQuery
  rw [if_neg hq, hacq]
  refine ⟨?_, ⟨(adhocLoop B ((jsSplit ';' q).filter fun s => jsTrimS s ≠ "") s0).1,
    rfl, ?_, ?_, ?_⟩⟩
  · simp only [execArgs, List.filterMap_cons, List.filterMap_append]
    simpa [execArgs] using hloop.1
  · exact hloop.2.1
  · simp [List.all_eq_true]
  · exact hloop.2.2.1

theorem executeQuery_adhoc_policy_witness :
    demoB.acquireErr = none ∧ jsTrimS "INSERT INTO t VALUES (1); BAD; INSERT INTO t VALUES (2)" ≠ "" ∧
    (execArgs (executeQuery demoB 0 "INSERT INTO t VALUES (1); BAD; INSERT INTO t VALUES (2)" none).trace
        = ((jsSplit ';' "INSERT INTO t VALUES (1); BAD; INSERT INTO t VALUES (2)").filter
            fun s => jsTrimS s ≠ "").map (fun s => jsTrimS s)
    ∧ ∃ rs, (executeQuery demoB 0 "INSERT INTO t VALUES (1); BAD; INSERT INTO t VALUES (2)" none).res.results = some rs
        ∧ rs.map (·.statement)
            = ((jsSplit ';' "INSERT INTO t VALUES (1); BAD; INSERT INTO t VALUES (2)").filter
                fun s => jsTrimS s ≠ "").map (fun s => jsTrimS s)
        ∧ ((executeQuery demoB 0 "INSERT INTO t VALUES (1); BAD; INSERT INTO t VALUES (2)" none).res.success = true
            ↔ ∀ x ∈ rs, x.success = true)
        ∧ (∀ x ∈ rs, x.success = false → x.error.isSome = true)) :=
  ⟨rfl, by decide,
    executeQuery_adhoc_policy demoB 0 "INSERT INTO t VALUES (1); BAD; INSERT INTO t VALUES (2)"
      none rfl (by decide)⟩

/-- C2 counterexample (to the claim as stated, which has no proviso about
connection acquisition): when `pool.getConnection()` throws, no statement of
the script is executed and no per-statement results exist, yet the overall
success flag is false — so "each statement is executed ... and success is
true iff every executed statement succeeded" fails at this input. -/
theorem executeQuery_acquire_failure_cex :
    execArgs (executeQuery demoAcqFail 0 "SELECT 1 FROM dual; SELECT 2 FROM dual" none).trace = []
    ∧ (executeQuery demoAcqFail 0 "SELECT 1 FROM dual; SELECT 2 FROM dual" none).res.success = false
    ∧ (executeQuery demoAcqFail 0 "SELECT 1 FROM dual; SELECT 2 FROM dual" none).res.results = none := by
  decide

/-- Branch equation: empty or whitespace-only query. -/
theorem eQ_empty {σ : Type} {B : Backend σ} {s0 : σ} {q : String} {sid : Option String}
    (hq : jsTrimS q = "") :
    executeQuery B s0 q sid =
      { res := { success := false, error := some "Empty query" }, state := s0, trace := [] } := by
  simp [executeQuery, hq]

/-- Branch equation: `pool.getConnection()` throws. -/
theorem eQ_acq_fails {σ : Type} {B : Backend σ} {s0 : σ} {q : String} {sid : Option String}
    {e : OraErr} (hq : jsTrimS q ≠ "") (hacq : B.acquireErr = some e) :
    executeQuery B s0 q sid =
      { res := { success := false, error := some e.message, errorNum := some e.errorNum,
                 query := some (jsSubstr100 q) },
        state := s0, trace := [] } := by
  simp [executeQuery, hq, hacq]

/-- Branch equation: the normal adhoc run. -/
theorem eQ_run {σ : Type} {B : Backend σ} {s0 : σ} {q : String} {sid : Option String}
    (hq : jsTrimS q ≠ "") (hacq : B.acquireErr = none) :
    executeQuery B s0 q sid =
      { res := { success := (adhocLoop B ((jsSplit ';' q).filter fun s => jsTrimS s ≠ "") s0).1.all (·.success),
                 results := some (adhocLoop B ((jsSplit ';' q).filter fun s => jsTrimS s ≠ "") s0).1,
                 message := some (if (adhocLoop B ((jsSplit ';' q).filter fun s => jsTrimS s ≠ "") s0).1.all (·.success)
                                  then "All statements executed successfully"
                                  else "Some statements failed") },
        state := (adhocLoop B ((jsSplit ';' q).filter fun s => jsTrimS s ≠ "") s0).2.1,
        trace := Ev.acquire :: (adhocLoop B ((jsSplit ';' q).filter fun s => jsTrimS s ≠ "") s0).2.2
                  ++ [Ev.release] } := by
  simp [executeQuery, hq, hacq]

/-- Branch equation: `executeMultipleStatements` when `pool.getConnection()`
throws. -/
theorem eMS_acq_fails {σ : Type} {B : Backend σ} {s0 : σ} {stmts : List String}
    {sid : Option String} {e : OraErr} (hacq : B.acquireErr = some e) :
    executeMultipleStatements B s0 stmts sid =
      { res := { success := false, error := some e.message, results := some [] },
        state := s0, trace := [] } := by
  simp [executeMultipleStatements, hacq]

/-! ## C1 — setup mode (`executeMultipleStatements`) error-handling policy -/

/-- Spec-side recursion in the claim's words: the statements setup mode
attempts — in order, stopping at (and including) the first failing one;
blank statements are not statements. -/
def setupAttempts {σ : Type} (B : Backend σ) : List String → σ → List String
  | [], _ => []
  | stmt :: rest, st =>
    if jsTrimS stmt = "" then setupAttempts B rest st
    else
      match B.exec stmt st with
      | .ok (_, st1) => stmt :: setupAttempts B rest st1
      | .error _ => [stmt]

/-- Spec-side recursion in the claim's words: every statement of the list
succeeds when executed in order. -/
def setupAllOk {σ : Type} (B : Backend σ) : List String → σ → Bool
  | [], _ => true
  | stmt :: rest, st =>
    if jsTrimS stmt = "" then setupAllOk B rest st
    else
      match B.exec stmt st with
      | .ok (_, st1) => setupAllOk B rest st1
      | .error _ => false

/-- The setup loop's trace is exactly the spec-side attempt list, its success
flag is the spec-side all-ok flag, and its trace holds only exec events. -/
theorem setupLoop_spec {σ : Type} (B : Backend σ) :
    ∀ (stmts : List String) (st : σ),
      execArgs (setupLoop B stmts st).2.2.1 = setupAttempts B stmts st
      ∧ (setupLoop B stmts st).2.2.2 = setupAllOk B stmts st
      ∧ (∀ e ∈ (setupLoop B stmts st).2.2.1,
          e ≠ Ev.acquire ∧ e ≠ Ev.release ∧ e ≠ Ev.rollback ∧ e ≠ Ev.commit) := by
  intro stmts
  induction stmts with
  | nil => intro st; exact ⟨rfl, rfl, by simp [setupLoop]⟩
  | cons stmt rest ih =>
    intro st
    by_cases h : jsTrimS stmt = ""
    · simpa [setupLoop, setupAttempts, setupAllOk, h] using ih st
    · cases hx : B.exec stmt st with
      | ok p =>
        obtain ⟨out, st1⟩ := p
        have := ih st1
        simp [setupLoop, setupAttempts, setupAllOk, h, hx, execArgs] at this ⊢
        exact this
      | error e =>
        simp [setupLoop, setupAttempts, setupAllOk, h, hx, execArgs]

/-- Branch equation: the transaction opener fails. -/
theorem eMS_txn_fails {σ : Type} {B : Backend σ} {s0 : σ} {stmts : List String}
    {sid : Option String} {e : OraErr} (hacq : B.acquireErr = none)
    (htx : B.exec setTxnStmt s0 = .error e) :
    executeMultipleStatements B s0 stmts sid =
      { res := { success := false, error := some e.message, results := some [] },
        state := s0,
        trace := [Ev.acquire, Ev.execStmt setTxnStmt, Ev.rollback, Ev.release] } := by
  simp [executeMultipleStatements, hacq, htx]

/-- Branch equation: all statements succeed and the commit succeeds. -/
theorem eMS_commit_ok {σ : Type} {B : Backend σ} {s0 : σ} {stmts : List String}
    {sid : Option String} {o0 : ExecOut} {s1 : σ} (hacq : B.acquireErr = none)
    (htx : B.exec setTxnStmt s0 = .ok (o0, s1))
    (hok : (setupLoop B stmts s1).2.2.2 = true) (hc : B.commitErr = none) :
    executeMultipleStatements B s0 stmts sid =
      { res := { success := true, results := some (setupLoop B stmts s1).1,
                 message := some "All statements executed successfully" },
        state := (setupLoop B stmts s1).2.1,
        trace := [Ev.acquire, Ev.execStmt setTxnStmt] ++ (setupLoop B stmts s1).2.2.1
                  ++ [Ev.commit, Ev.release] } := by
  simp [executeMultipleStatements, hacq, htx, hok, hc]

/-- Branch equation: all statements succeed but the commit throws. -/
theorem eMS_commit_fails {σ : Type} {B : Backend σ} {s0 : σ} {stmts : List String}
    {sid : Option String} {o0 : ExecOut} {s1 : σ} {e : OraErr} (hacq : B.acquireErr = none)
    (htx : B.exec setTxnStmt s0 = .ok (o0, s1))
    (hok : (setupLoop B stmts s1).2.2.2 = true) (hc : B.commitErr = some e) :
    executeMultipleStatements B s0 stmts sid =
      { res := { success := false, error := some e.message, results := some [] },
        state := s0,
        trace := [Ev.acquire, Ev.execStmt setTxnStmt] ++ (setupLoop B stmts s1).2.2.1
                  ++ [Ev.commit, Ev.rollback, Ev.release] } := by
  simp [executeMultipleStatements, hacq, htx, hok, hc]

/-- Branch equation: a statement fails and the rollback succeeds. -/
theorem eMS_stmt_fails {σ : Type} {B : Backend σ} {s0 : σ} {stmts : List String}
    {sid : Option String} {o0 : ExecOut} {s1 : σ} (hacq : B.acquireErr = none)
    (htx : B.exec setTxnStmt s0 = .ok (o0, s1))
    (hok : (setupLoop B stmts s1).2.2.2 = false) (hr : B.rollbackErr = none) :
    executeMultipleStatements B s0 stmts sid =
      { res := { success := false, results := some (setupLoop B stmts s1).1,
                 message := some "Execution failed with errors" },
        state := s0,
        trace := [Ev.acquire, Ev.execStmt setTxnStmt] ++ (setupLoop B stmts s1).2.2.1
                  ++ [Ev.rollback, Ev.release] } := by
  simp [executeMultipleStatements, hacq, htx, hok, hr]

/-- Branch equation: a statement fails and the rollback throws as well. -/
theorem eMS_rollback_fails {σ : Type} {B : Backend σ} {s0 : σ} {stmts : List String}
    {sid : Option String} {o0 : ExecOut} {s1 : σ} {e : OraErr} (hacq : B.acquireErr = none)
    (htx : B.exec setTxnStmt s0 = .ok (o0, s1))
    (hok : (setupLoop B stmts s1).2.2.2 = false) (hr : B.rollbackErr = some e) :
    executeMultipleStatements B s0 stmts sid =
      { res := { success := false, error := some e.message, results := some [] },
        state := s0,
        trace := [Ev.acquire, Ev.execStmt setTxnStmt] ++ (setupLoop B stmts s1).2.2.1
                  ++ [Ev.rollback, Ev.rollback, Ev.release] } := by
  simp [executeMultipleStatements, hacq, htx, hok, hr]

/-- C1 amended: provided the pooled connection is acquired successfully: the
attempted statements are the transaction opener followed by the input
statements up to and including the first failing one (no later statement is
attempted); if some statement fails, a rollback is issued and the persistent
state is unchanged (nothing of the call persists); and the overall success
flag is true iff every statement succeeded and no rollback occurred. -/
theorem executeMultipleStatements_setup_policy {σ : Type} (B : Backend σ) (s0 : σ)
    (stmts : List String) (sid : Option String) (hacq : B.acquireErr = none) :
    (execArgs (executeMultipleStatements B s0 stmts sid).trace
        = setTxnStmt :: (match B.exec setTxnStmt s0 with
            | .error _ => []
            | .ok (_, s1) => setupAttempts B stmts s1))
    ∧ (∀ o s1, B.exec setTxnStmt s0 = .ok (o, s1) → setupAllOk B stmts s1 = false →
        Ev.rollback ∈ (executeMultipleStatements B s0 stmts sid).trace
        ∧ (executeMultipleStatements B s0 stmts sid).state = s0)
    ∧ ((executeMultipleStatements B s0 stmts sid).res.success = true ↔
        ((∃ o s1, B.exec setTxnStmt s0 = .ok (o, s1) ∧ setupAllOk B stmts s1 = true)
          ∧ Ev.rollback ∉ (executeMultipleStatements B s0 stmts sid).trace)) := by
  cases htx : B.exec setTxnStmt s0 with
  | error e =>
    rw [eMS_txn_fails hacq htx]
    refine ⟨by simp [execArgs], ?_, ?_⟩
    · intro o s1 h1 h2
      exact absurd h1 (by simp)
    · constructor
      · intro h; exact absurd h (by simp)
      · rintro ⟨⟨o, s1, hok2, -⟩, -⟩
        exact absurd hok2 (by simp)
  | ok p =>
    obtain ⟨o0, s1⟩ := p
    have hloop := setupLoop_spec B stmts s1
    have hnr : Ev.rollback ∉ (setupLoop B stmts s1).2.2.1 := fun hmem =>
      absurd rfl (hloop.2.2 _ hmem).2.2.1
    have hsame : ∀ (o : ExecOut) (s1' : σ),
        (Except.ok (o0, s1) : Except OraErr (ExecOut × σ)) = Except.ok (o, s1') → s1' = s1 := by
      intro o s1' h1
      injection h1 with h1'
      exact (congrArg Prod.snd h1').symm
    have hargs : execArgs ([Ev.acquire, Ev.execStmt setTxnStmt] ++ (setupLoop B stmts s1).2.2.1
        ++ ([Ev.commit, Ev.release] : List Ev)) = setTxnStmt :: setupAttempts B stmts s1 := by
      simp [execArgs, List.filterMap_append]
      simpa [execArgs] using hloop.1
    cases hok : (setupLoop B stmts s1).2.2.2 with
    | true =>
      have hall : setupAllOk B stmts s1 = true := by rw [← hloop.2.1]; exact hok
      cases hc : B.commitErr with
      | none =>
        rw [eMS_commit_ok hacq htx hok hc]
        refine ⟨by simpa using hargs, ?_, ?_⟩
        · intro o s1' h1 h2
          rw [hsame o s1' h1] at h2
          rw [hall] at h2; exact absurd h2 (by simp)
        · constructor
          · intro _
            refine ⟨⟨o0, s1, rfl, hall⟩, ?_⟩
            intro hmem
            rcases List.mem_append.mp hmem with h | h
            · rcases List.mem_append.mp h with h2 | h2
              · simp at h2
              · exact hnr h2
            · simp at h
          · intro _; rfl
      | some e =>
        rw [eMS_commit_fails hacq htx hok hc]
        refine ⟨?_, ?_, ?_⟩
        · simp only [execArgs, List.filterMap_append] at hargs ⊢
          simpa [execArgs] using hargs
        · intro o s1' h1 h2
          rw [hsame o s1' h1] at h2
          rw [hall] at h2; exact absurd h2 (by simp)
        · constructor
          · intro h; exact absurd h (by simp)
          · rintro ⟨-, hno⟩
            exact absurd (by simp : Ev.rollback ∈ [Ev.acquire, Ev.execStmt setTxnStmt]
              ++ (setupLoop B stmts s1).2.2.1 ++ [Ev.commit, Ev.rollback, Ev.release]) hno
    | false =>
      have hfail : setupAllOk B stmts s1 = false := by rw [← hloop.2.1]; exact hok
      cases hr : B.rollbackErr with
      | none =>
        rw [eMS_stmt_fails hacq htx hok hr]
        refine ⟨?_, ?_, ?_⟩
        · simp only [execArgs, List.filterMap_append] at hargs ⊢
          simpa [execArgs] using hargs
        · intro o s1' h1 _
          exact ⟨by simp, rfl⟩
        · constructor
          · intro h; exact absurd h (by simp)
          · rintro ⟨⟨o, s1', h1, h2⟩, -⟩
            rw [hsame o s1' h1] at h2
            rw [hfail] at h2; exact absurd h2 (by simp)
      | some e =>
        rw [eMS_rollback_fails hacq htx hok hr]
        refine ⟨?_, ?_, ?_⟩
        · simp only [execArgs, List.filterMap_append] at hargs ⊢
          simpa [execArgs] using hargs
        · intro o s1' h1 _
          exact ⟨by simp, rfl⟩
        · constructor
          · intro h; exact absurd h (by simp)
          · rintro ⟨⟨o, s1', h1, h2⟩, -⟩
            rw [hsame o s1' h1] at h2
            rw [hfail] at h2; exact absurd h2 (by simp)

theorem executeMultipleStatements_setup_policy_witness :
    demoB.acquireErr = none ∧
    ((execArgs (executeMultipleStatements demoB 0
          ["INSERT INTO t VALUES (1)", "BAD", "INSERT INTO t VALUES (2)"] none).trace
        = setTxnStmt :: (match demoB.exec setTxnStmt 0 with
            | .error _ => []
            | .ok (_, s1) =>
              setupAttempts demoB ["INSERT INTO t VALUES (1)", "BAD", "INSERT INTO t VALUES (2)"] s1))
    ∧ (∀ o s1, demoB.exec setTxnStmt 0 = .ok (o, s1) →
        setupAllOk demoB ["INSERT INTO t VALUES (1)", "BAD", "INSERT INTO t VALUES (2)"] s1 = false →
        Ev.rollback ∈ (executeMultipleStatements demoB 0
          ["INSERT INTO t VALUES (1)", "BAD", "INSERT INTO t VALUES (2)"] none).trace
        ∧ (executeMultipleStatements demoB 0
          ["INSERT INTO t VALUES (1)", "BAD", "INSERT INTO t VALUES (2)"] none).state = 0)
    ∧ ((executeMultipleStatements demoB 0
          ["INSERT INTO t VALUES (1)", "BAD", "INSERT INTO t VALUES (2)"] none).res.success = true ↔
        ((∃ o s1, demoB.exec setTxnStmt 0 = .ok (o, s1)
            ∧ setupAllOk demoB ["INSERT INTO t VALUES (1)", "BAD", "INSERT INTO t VALUES (2)"] s1 = true)
          ∧ Ev.rollback ∉ (executeMultipleStatements demoB 0
              ["INSERT INTO t VALUES (1)", "BAD", "INSERT INTO t VALUES (2)"] none).trace))) :=
  ⟨rfl, executeMultipleStatements_setup_policy demoB 0
      ["INSERT INTO t VALUES (1)", "BAD", "INSERT INTO t VALUES (2)"] none rfl⟩

/-- C1 counterexample (to the claim as stated, which has no proviso about
connection acquisition): on the empty statement list with a backend whose
`pool.getConnection()` throws, every statement (vacuously) succeeded and no
rollback occurred — the trace is empty — yet the overall success flag is
false, refuting the claimed "success iff every statement succeeded with no
rollback". -/
theorem executeMultipleStatements_acquire_failure_cex :
    (executeMultipleStatements demoAcqFail 0 ([] : List String) none).res.success = false
    ∧ (executeMultipleStatements demoAcqFail 0 ([] : List String) none).trace = []
    ∧ (executeMultipleStatements demoAcqFail 0 ([] : List String) none).res.results = some [] := by
  decide

/-! ## C9 — every borrowed connection is released -/

/-- A trace releases its connections: as many releases as acquires, and if a
connection was acquired at all, the last event of the call is the release. -/
def balancedRelease (t : List Ev) : Bool :=
  (t.count Ev.acquire == t.count Ev.release) &&
  (!(t.contains Ev.acquire) || t.getLast? == some Ev.release)

theorem balancedRelease_shape (tr mid : List Ev)
    (htr : ∀ e ∈ tr, e ≠ Ev.acquire ∧ e ≠ Ev.release)
    (hmid : ∀ e ∈ mid, e ≠ Ev.acquire ∧ e ≠ Ev.release) :
    balancedRelease (Ev.acquire :: tr ++ (mid ++ [Ev.release])) = true := by
  have htr1 : tr.count Ev.acquire = 0 := by
    rw [List.count_eq_zero]
    intro hmem; exact absurd rfl (htr _ hmem).1
  have htr2 : tr.count Ev.release = 0 := by
    rw [List.count_eq_zero]
    intro hmem; exact absurd rfl (htr _ hmem).2
  have hmid1 : mid.count Ev.acquire = 0 := by
    rw [List.count_eq_zero]
    intro hmem; exact absurd rfl (hmid _ hmem).1
  have hmid2 : mid.count Ev.release = 0 := by
    rw [List.count_eq_zero]
    intro hmem; exact absurd rfl (hmid _ hmem).2
  have hlast : (Ev.acquire :: tr ++ (mid ++ [Ev.release])).getLast? = some Ev.release := by
    have : Ev.acquire :: tr ++ (mid ++ [Ev.release])
        = (Ev.acquire :: (tr ++ mid)) ++ [Ev.release] := by simp
    rw [this, List.getLast?_concat]
  unfold balancedRelease
  rw [hlast]
  simp [List.count_cons, List.count_append, htr1, htr2, hmid1, hmid2]

/-- C9: each of `executeQuery`, `executeMultipleStatements` and
`validateQuery` releases the borrowed connection on every exit path — normal
completion, per-statement failure, and errors while executing, committing or
rolling back (and when acquisition itself fails, nothing was borrowed and
nothing is released). -/
theorem connection_always_released {σ : Type} (B : Backend σ) (s0 : σ) (q : String)
    (stmts : List String) (sid : Option String) :
    balancedRelease (executeQuery B s0 q sid).trace = true
    ∧ balancedRelease (executeMultipleStatements B s0 stmts sid).trace = true
    ∧ balancedRelease (validateQuery B s0 q).trace = true := by
  refine ⟨?_, ?_, ?_⟩
  · by_cases hq : jsTrimS q = ""
    · rw [eQ_empty hq]; rfl
    · cases hacq : B.acquireErr with
      | some e => rw [eQ_acq_fails hq hacq]; rfl
      | none =>
        rw [eQ_run hq hacq]
        have hloop := adhocLoop_spec B ((jsSplit ';' q).filter fun s => jsTrimS s ≠ "") s0
        have := balancedRelease_shape
          (adhocLoop B ((jsSplit ';' q).filter fun s => jsTrimS s ≠ "") s0).2.2 []
          hloop.2.2.2 (by simp)
        simpa using this
  · cases hacq : B.acquireErr with
    | some e => rw [eMS_acq_fails hacq]; rfl
    | none =>
      cases htx : B.exec setTxnStmt s0 with
      | error e =>
        rw [eMS_txn_fails hacq htx]
        have := balancedRelease_shape [Ev.execStmt setTxnStmt] [Ev.rollback]
          (by simp) (by simp)
        simpa using this
      | ok p =>
        obtain ⟨o0, s1⟩ := p
        have hloop := setupLoop_spec B stmts s1
        have htr : ∀ e ∈ Ev.execStmt setTxnStmt :: (setupLoop B stmts s1).2.2.1,
            e ≠ Ev.acquire ∧ e ≠ Ev.release := by
          intro e he
          rcases List.mem_cons.mp he with h | h
          · subst h; exact ⟨by simp, by simp⟩
          · exact ⟨(hloop.2.2 _ h).1, (hloop.2.2 _ h).2.1⟩
        cases hok : (setupLoop B stmts s1).2.2.2 with
        | true =>
          cases hc : B.commitErr with
          | none =>
            rw [eMS_commit_ok hacq htx hok hc]
            have := balancedRelease_shape
              (Ev.execStmt setTxnStmt :: (setupLoop B stmts s1).2.2.1) [Ev.commit]
              htr (by simp)
            simpa using this
          | some e =>
            rw [eMS_commit_fails hacq htx hok hc]
            have := balancedRelease_shape
              (Ev.execStmt setTxnStmt :: (setupLoop B stmts s1).2.2.1)
              [Ev.commit, Ev.rollback] htr (by simp)
            simpa using this
        | false =>
          cases hr : B.rollbackErr with
          | none =>
            rw [eMS_stmt_fails hacq htx hok hr]
            have := balancedRelease_shape
              (Ev.execStmt setTxnStmt :: (setupLoop B stmts s1).2.2.1)
              [Ev.rollback] htr (by simp)
            simpa using this
          | some e =>
            rw [eMS_rollback_fails hacq htx hok hr]
            have := balancedRelease_shape
              (Ev.execStmt setTxnStmt :: (setupLoop B stmts s1).2.2.1)
              [Ev.rollback, Ev.rollback] htr (by simp)
            simpa using this
  · unfold validateQuery
    cases B.acquireErr with
    | some e => rfl
    | none =>
      cases B.parse q with
      | error e => rfl
      | ok o => cases o <;> rfl

/-! ## C8 — what the assembled results actually attach -/

/-- What a per-statement result record actually carries: never a row set or
column names; an affected-row count exactly when the statement succeeded. -/
def attachesOnlyAffected (x : StmtResult) : Bool :=
  x.rows == none && x.columns == none && (x.affectedRows).isSome == x.success

theorem adhocLoop_attaches {σ : Type} (B : Backend σ) :
    ∀ (stmts : List String) (st : σ),
      ∀ x ∈ (adhocLoop B stmts st).1, attachesOnlyAffected x = true := by
  intro stmts
  induction stmts with
  | nil => intro st x hx; simp [adhocLoop] at hx
  | cons stmt rest ih =>
    intro st x hx
    by_cases h : jsTrimS stmt = ""
    · simp only [adhocLoop, h, if_pos] at hx
      exact ih st x hx
    · simp only [adhocLoop, h] at hx
      cases hx2 : B.exec (jsTrimS stmt) st with
      | ok p =>
        rw [hx2] at hx
        rcases List.mem_cons.mp hx with h1 | h1
        · subst h1; rfl
        · exact ih p.2 x h1
      | error e =>
        rw [hx2] at hx
        rcases List.mem_cons.mp hx with h1 | h1
        · subst h1; rfl
        · exact ih st x h1

theorem setupLoop_attaches {σ : Type} (B : Backend σ) :
    ∀ (stmts : List String) (st : σ),
      ∀ x ∈ (setupLoop B stmts st).1, attachesOnlyAffected x = true := by
  intro stmts
  induction stmts with
  | nil => intro st x hx; simp [setupLoop] at hx
  | cons stmt rest ih =>
    intro st x hx
    by_cases h : jsTrimS stmt = ""
    · simp only [setupLoop, h, if_pos] at hx
      exact ih st x hx
    · simp only [setupLoop, h] at hx
      cases hx2 : B.exec stmt st with
      | ok p =>
        rw [hx2] at hx
        rcases List.mem_cons.mp hx with h1 | h1
        · subst h1; rfl
        · exact ih p.2 x h1
      | error e =>
        rw [hx2] at hx
        rcases List.mem_cons.mp hx with h1 | h1
        · subst h1; rfl
        · simp at h1

/-- C8 amended: for both execution entry points, the assembled result never
attaches a row set, column names, or a wall-clock execution time; per
statement only the affected-row count is attached (exactly for successful
statements, defaulting to 0 when the backend reports none). -/
theorem results_attach_only_affectedRows {σ : Type} (B : Backend σ) (s0 : σ)
    (q : String) (stmts : List String) (sid : Option String) :
    (((executeQuery B s0 q sid).res.results.getD []).all attachesOnlyAffected = true
      ∧ (executeQuery B s0 q sid).res.executionTime = none)
    ∧ (((executeMultipleStatements B s0 stmts sid).res.results.getD []).all attachesOnlyAffected = true
      ∧ (executeMultipleStatements B s0 stmts sid).res.executionTime = none) := by
  constructor
  · by_cases hq : jsTrimS q = ""
    · rw [eQ_empty hq]; exact ⟨rfl, rfl⟩
    · cases hacq : B.acquireErr with
      | some e => rw [eQ_acq_fails hq hacq]; exact ⟨rfl, rfl⟩
      | none =>
        rw [eQ_run hq hacq]
        refine ⟨?_, rfl⟩
        rw [List.all_eq_true]
        exact fun x hx => adhocLoop_attaches B _ s0 x (by simpa using hx)
  · cases hacq : B.acquireErr with
    | some e => rw [eMS_acq_fails hacq]; exact ⟨rfl, rfl⟩
    | none =>
      cases htx : B.exec setTxnStmt s0 with
      | error e => rw [eMS_txn_fails hacq htx]; exact ⟨rfl, rfl⟩
      | ok p =>
        obtain ⟨o0, s1⟩ := p
        cases hok : (setupLoop B stmts s1).2.2.2 with
        | true =>
          cases hc : B.commitErr with
          | none =>
            rw [eMS_commit_ok hacq htx hok hc]
            refine ⟨?_, rfl⟩
            rw [List.all_eq_true]
            exact fun x hx => setupLoop_attaches B stmts s1 x (by simpa using hx)
          | some e => rw [eMS_commit_fails hacq htx hok hc]; exact ⟨rfl, rfl⟩
        | false =>
          cases hr : B.rollbackErr with
          | none =>
            rw [eMS_stmt_fails hacq htx hok hr]
            refine ⟨?_, rfl⟩
            rw [List.all_eq_true]
            exact fun x hx => setupLoop_attaches B stmts s1 x (by simpa using hx)
          | some e => rw [eMS_rollback_fails hacq htx hok hr]; exact ⟨rfl, rfl⟩

/-- C8 counterexample: the backend returns a row set `[[1],[2]]` with column
`ID` for a query, but the assembled per-statement result carries neither rows
nor column names (only `affectedRows`, defaulted to 0), and the overall
result carries no execution time — refuting "attach the row set and column
names ... always attach wall-clock execution time". -/
theorem rows_and_time_not_attached_cex :
    (demoRowsB.exec "SELECT * FROM t" 0).toOption
      = some ({ rowsAffected := none, rows := some [[1], [2]], metaData := some ["ID"] }, 1)
    ∧ (executeQuery demoRowsB 0 "SELECT * FROM t" none).res.results
        = some [{ success := true, statement := "SELECT * FROM t", affectedRows := some 0 }]
    ∧ (executeQuery demoRowsB 0 "SELECT * FROM t" none).res.executionTime = none := by
  decide

/-! ## C6 — support lemmas: trimming, joining and splitting lines -/

theorem dropWhile_head_false (p : Char → Bool) :
    ∀ {l : List Char} {c : Char} {r : List Char}, l.dropWhile p = c :: r → p c = false := by
  intro l
  induction l with
  | nil => intro c r h; simp at h
  | cons a as ih =>
    intro c r h
    by_cases hp : p a = true
    · rw [List.dropWhile_cons_of_pos hp] at h; exact ih h
    · rw [List.dropWhile_cons_of_neg hp] at h
      obtain ⟨h1, -⟩ := List.cons.inj h
      rw [← h1]; simpa using hp

theorem exists_dropWhile_eq_append (p : Char → Bool) :
    ∀ l : List Char, ∃ t, l = t ++ l.dropWhile p := by
  intro l
  induction l with
  | nil => exact ⟨[], rfl⟩
  | cons a as ih =>
    by_cases hp : p a = true
    · obtain ⟨t, ht⟩ := ih
      exact ⟨a :: t, by rw [List.dropWhile_cons_of_pos hp]; simpa using ht⟩
    · exact ⟨[], by rw [List.dropWhile_cons_of_neg hp]; rfl⟩

theorem mem_of_mem_jsTrimL {c : Char} {l : List Char} (h : c ∈ jsTrimL l) : c ∈ l := by
  unfold jsTrimL at h
  rw [List.mem_reverse] at h
  have h2 : c ∈ (l.dropWhile jsIsSpace).reverse := (List.dropWhile_sublist jsIsSpace).mem h
  rw [List.mem_reverse] at h2
  exact (List.dropWhile_sublist jsIsSpace).mem h2

theorem jsTrimL_head_false {l : List Char} {c : Char} {r : List Char}
    (h : jsTrimL l = c :: r) : jsIsSpace c = false := by
  unfold jsTrimL at h
  have hz : ((l.dropWhile jsIsSpace).reverse.dropWhile jsIsSpace).getLast? = some c := by
    rw [← List.head?_reverse, h]; rfl
  cases hzz : (l.dropWhile jsIsSpace).reverse.dropWhile jsIsSpace with
  | nil => rw [hzz] at hz; simp at hz
  | cons z zs =>
    obtain ⟨t, ht⟩ := exists_dropWhile_eq_append jsIsSpace (l.dropWhile jsIsSpace).reverse
    have hy : (l.dropWhile jsIsSpace).reverse.getLast? = some c := by
      rw [ht, List.getLast?_append_of_ne_nil t (by rw [hzz]; exact List.cons_ne_nil z zs)]
      exact hz
    have hy2 : (l.dropWhile jsIsSpace).head? = some c := by
      rw [← List.head?_reverse] at hy
      simpa using hy
    cases hyy : l.dropWhile jsIsSpace with
    | nil => rw [hyy] at hy2; simp at hy2
    | cons y ys =>
      rw [hyy] at hy2
      have : y = c := by simpa using hy2
      subst this
      exact dropWhile_head_false jsIsSpace hyy

theorem jsTrimL_last_false {l : List Char} {d : Char}
    (h : (jsTrimL l).getLast? = some d) : jsIsSpace d = false := by
  unfold jsTrimL at h
  rw [← List.head?_reverse, List.reverse_reverse] at h
  cases hz : (l.dropWhile jsIsSpace).reverse.dropWhile jsIsSpace with
  | nil => rw [hz] at h; simp at h
  | cons z zs =>
    rw [hz] at h
    have : z = d := by simpa using h
    subst this
    exact dropWhile_head_false jsIsSpace hz

theorem jsTrimL_eq_self {c : Char} {r : List Char} (hc : jsIsSpace c = false)
    {d : Char} (hd : (c :: r).getLast? = some d) (hds : jsIsSpace d = false) :
    jsTrimL (c :: r) = c :: r := by
  unfold jsTrimL
  rw [List.dropWhile_cons_of_neg (by simp [hc])]
  have hrev : (c :: r).reverse.head? = some d := by rw [List.head?_reverse]; exact hd
  cases hrr : (c :: r).reverse with
  | nil => simp at hrr
  | cons e es =>
    rw [hrr] at hrev
    have : e = d := by simpa using hrev
    subst this
    rw [List.dropWhile_cons_of_neg (by simp [hds]), ← hrr, List.reverse_reverse]

theorem jsTrimL_idem (l : List Char) : jsTrimL (jsTrimL l) = jsTrimL l := by
  cases hh : jsTrimL l with
  | nil => rfl
  | cons c r =>
    have hc : jsIsSpace c = false := jsTrimL_head_false hh
    have hne : (c :: r).getLast?.isSome = true :=
      List.getLast?_isSome.mpr (List.cons_ne_nil c r)
    obtain ⟨d, hd⟩ := Option.isSome_iff_exists.mp hne
    have hds : jsIsSpace d = false := jsTrimL_last_false (by rw [hh]; exact hd)
    exact jsTrimL_eq_self hc hd hds

theorem jsTrimL_concat_newline {c : Char} {r : List Char} (hc : jsIsSpace c = false)
    {d : Char} (hd : (c :: r).getLast? = some d) (hds : jsIsSpace d = false) :
    jsTrimL ((c :: r) ++ ['\n']) = c :: r := by
  unfold jsTrimL
  rw [List.cons_append, List.dropWhile_cons_of_neg (by simp [hc])]
  have h1 : (c :: r ++ ['\n']).reverse = '\n' :: (c :: r).reverse := by
    simp
  rw [← List.cons_append, h1, List.dropWhile_cons_of_pos (by decide)]
  have hrev : (c :: r).reverse.head? = some d := by rw [List.head?_reverse]; exact hd
  cases hrr : (c :: r).reverse with
  | nil => simp at hrr
  | cons e es =>
    rw [hrr] at hrev
    have : e = d := by simpa using hrev
    subst this
    rw [List.dropWhile_cons_of_neg (by simp [hds]), ← hrr, List.reverse_reverse]

/-- The non-blank trimmed lines joined by `'\n'` (the content of the single
statement the splitter produces when nothing terminates a statement). -/
def joinNL : List (List Char) → List Char
  | [] => []
  | [l] => l
  | l :: ls => l ++ '\n' :: joinNL ls

/-- The raw accumulation of the splitter's `currentStatement`: every line is
followed by `'\n'`. -/
def glueNL : List (List Char) → List Char
  | [] => []
  | l :: ls => l ++ '\n' :: glueNL ls

theorem glueNL_eq_joinNL : ∀ {parts : List (List Char)}, parts ≠ [] →
    glueNL parts = joinNL parts ++ ['\n'] := by
  intro parts
  induction parts with
  | nil => intro h; exact absurd rfl h
  | cons p ps ih =>
    intro _
    cases ps with
    | nil => rfl
    | cons p2 ps2 =>
      show p ++ '\n' :: glueNL (p2 :: ps2) = (p ++ '\n' :: joinNL (p2 :: ps2)) ++ ['\n']
      rw [ih (List.cons_ne_nil p2 ps2)]
      simp

theorem joinNL_ne_nil : ∀ {parts : List (List Char)}, parts ≠ [] →
    (∀ p ∈ parts, p ≠ []) → joinNL parts ≠ [] := by
  intro parts
  induction parts with
  | nil => intro h; exact absurd rfl h
  | cons p ps _ =>
    intro _ hall
    cases ps with
    | nil => exact hall p (by simp)
    | cons p2 ps2 =>
      show p ++ '\n' :: joinNL (p2 :: ps2) ≠ []
      simp

theorem joinNL_head? {p : List Char} (ps : List (List Char)) (hp : p ≠ []) :
    (joinNL (p :: ps)).head? = p.head? := by
  cases ps with
  | nil => rfl
  | cons p2 ps2 =>
    show (p ++ '\n' :: joinNL (p2 :: ps2)).head? = p.head?
    cases p with
    | nil => exact absurd rfl hp
    | cons c cs => rfl

theorem joinNL_getLast? : ∀ (parts : List (List Char)), (∀ p ∈ parts, p ≠ []) →
    parts ≠ [] → ∃ q ∈ parts, (joinNL parts).getLast? = q.getLast? := by
  intro parts
  induction parts with
  | nil => intro _ h; exact absurd rfl h
  | cons p ps ih =>
    intro hall _
    cases ps with
    | nil => exact ⟨p, by simp, rfl⟩
    | cons p2 ps2 =>
      have hrest : ∀ x ∈ p2 :: ps2, x ≠ [] := fun x hx => hall x (List.mem_cons_of_mem p hx)
      obtain ⟨q, hq, hlast⟩ := ih hrest (List.cons_ne_nil p2 ps2)
      refine ⟨q, List.mem_cons_of_mem p hq, ?_⟩
      show (p ++ '\n' :: joinNL (p2 :: ps2)).getLast? = q.getLast?
      rw [List.getLast?_append_of_ne_nil p (List.cons_ne_nil _ _)]
      have hj : joinNL (p2 :: ps2) ≠ [] := joinNL_ne_nil (List.cons_ne_nil p2 ps2) hrest
      calc ('\n' :: joinNL (p2 :: ps2)).getLast?
          = (['\n'] ++ joinNL (p2 :: ps2)).getLast? := rfl
        _ = (joinNL (p2 :: ps2)).getLast? := List.getLast?_append_of_ne_nil ['\n'] hj
        _ = q.getLast? := hlast

/-- Trimming the raw accumulation yields the newline-join of the (already
trimmed, non-blank) parts. -/
theorem jsTrimL_glueNL (parts : List (List Char)) (hne : parts ≠ [])
    (hclean : ∀ p ∈ parts, jsTrimL p = p ∧ p ≠ []) :
    jsTrimL (glueNL parts) = joinNL parts := by
  rw [glueNL_eq_joinNL hne]
  cases parts with
  | nil => exact absurd rfl hne
  | cons p ps =>
    obtain ⟨hp_trim, hp_ne⟩ := hclean p (by simp)
    cases hp : p with
    | nil => exact absurd hp hp_ne
    | cons c cr =>
      have hc : jsIsSpace c = false :=
        jsTrimL_head_false (show jsTrimL p = c :: cr by rw [hp_trim]; exact hp)
      have hhead : (joinNL (p :: ps)).head? = some c := by
        rw [joinNL_head? ps hp_ne, hp]; rfl
      obtain ⟨J, hJ⟩ : ∃ J, joinNL (p :: ps) = c :: J := by
        cases hj : joinNL (p :: ps) with
        | nil => rw [hj] at hhead; simp at hhead
        | cons a as =>
          rw [hj] at hhead
          have ha : a = c := by simpa using hhead
          exact ⟨as, by rw [ha]⟩
      obtain ⟨q, hq, hlast⟩ := joinNL_getLast? (p :: ps)
        (fun x hx => (hclean x hx).2) (List.cons_ne_nil p ps)
      obtain ⟨hq_trim, hq_ne⟩ := hclean q hq
      have hqsome : q.getLast?.isSome = true := List.getLast?_isSome.mpr hq_ne
      obtain ⟨d, hd⟩ := Option.isSome_iff_exists.mp hqsome
      have hds : jsIsSpace d = false := jsTrimL_last_false (by rw [hq_trim]; exact hd)
      have hdJ : (c :: J).getLast? = some d := by rw [← hJ, hlast]; exact hd
      rw [← hp, hJ, jsTrimL_concat_newline hc hdJ hds]

theorem splitSep_ne_nil (sep : Char) : ∀ x : List Char, splitSep sep x ≠ [] := by
  intro x
  induction x with
  | nil => simp [splitSep]
  | cons c cs ih =>
    cases hs : splitSep sep cs with
    | nil => exact absurd hs ih
    | cons h t =>
      by_cases hc : c = sep
      · simp [splitSep, hs, hc]
      · simp [splitSep, hs, hc]

theorem splitSep_no_sep (sep : Char) : ∀ (x : List Char), ∀ l ∈ splitSep sep x, sep ∉ l := by
  intro x
  induction x with
  | nil => intro l hl; simp [splitSep] at hl; simp [hl]
  | cons c cs ih =>
    intro l hl
    cases hs : splitSep sep cs with
    | nil => exact absurd hs (splitSep_ne_nil sep cs)
    | cons h t =>
      by_cases hc : c = sep
      · simp only [splitSep, hs, hc, if_pos rfl] at hl
        rcases List.mem_cons.mp hl with h1 | h1
        · subst h1; simp
        · exact ih l (by rw [hs]; exact h1)
      · simp only [splitSep, hs, if_neg hc] at hl
        rcases List.mem_cons.mp hl with h1 | h1
        · subst h1
          intro hmem
          rcases List.mem_cons.mp hmem with h2 | h2
          · exact hc h2.symm
          · exact ih h (by rw [hs]; simp) h2
        · exact ih l (by rw [hs]; exact List.mem_cons_of_mem h h1)

theorem splitSep_single {sep : Char} : ∀ {p : List Char}, sep ∉ p → splitSep sep p = [p] := by
  intro p
  induction p with
  | nil => intro _; rfl
  | cons c cs ih =>
    intro hmem
    have hc : c ≠ sep := fun h => hmem (by rw [h]; simp)
    have hcs : sep ∉ cs := fun h => hmem (List.mem_cons_of_mem c h)
    rw [splitSep, ih hcs]
    simp [hc]

theorem splitSep_append_sep {sep : Char} :
    ∀ {p x : List Char}, sep ∉ p → splitSep sep (p ++ sep :: x) = p :: splitSep sep x := by
  intro p
  induction p with
  | nil =>
    intro x _
    show splitSep sep (sep :: x) = [] :: splitSep sep x
    cases hs : splitSep sep x with
    | nil => exact absurd hs (splitSep_ne_nil sep x)
    | cons h t => simp [splitSep, hs]
  | cons c cs ih =>
    intro x hmem
    have hc : c ≠ sep := fun h => hmem (by rw [h]; simp)
    have hcs : sep ∉ cs := fun h => hmem (List.mem_cons_of_mem c h)
    show splitSep sep (c :: (cs ++ sep :: x)) = (c :: cs) :: splitSep sep x
    rw [splitSep, ih hcs]
    simp [hc]

theorem splitSep_joinNL : ∀ (parts : List (List Char)), (∀ p ∈ parts, '\n' ∉ p) →
    parts ≠ [] → splitSep '\n' (joinNL parts) = parts := by
  intro parts
  induction parts with
  | nil => intro _ h; exact absurd rfl h
  | cons p ps ih =>
    intro hall _
    cases ps with
    | nil => exact splitSep_single (hall p (by simp))
    | cons p2 ps2 =>
      show splitSep '\n' (p ++ '\n' :: joinNL (p2 :: ps2)) = p :: p2 :: ps2
      rw [splitSep_append_sep (hall p (by simp))]
      rw [ih (fun x hx => hall x (List.mem_cons_of_mem p hx)) (List.cons_ne_nil p2 ps2)]

theorem toNat_ofNat_small {m : Nat} (h : m < 55296) : (Char.ofNat m).toNat = m := by
  unfold Char.ofNat
  split
  · simp [Char.ofNatAux, Char.toNat, UInt32.toNat, BitVec.toNat_ofNatLt]
  · rename_i hv
    exact absurd (Or.inl h) hv

theorem ucChar_semi {a : Char} (h : ucChar a = ';') : a = ';' := by
  unfold ucChar at h
  by_cases h97 : (97 ≤ a.toNat && a.toNat ≤ 122) = true
  · rw [if_pos h97] at h
    exfalso
    simp only [Bool.and_eq_true, decide_eq_true_eq] at h97
    have h1 : (Char.ofNat (a.toNat - 32)).toNat = a.toNat - 32 :=
      toNat_ofNat_small (by omega)
    have h2 := congrArg Char.toNat h
    rw [h1] at h2
    have : (';' : Char).toNat = 59 := by decide
    omega
  · rw [if_neg h97] at h
    exact h

theorem uc_endsSemi {x : List Char} (h : isSuffOf "END;".data (ucL x) = true) :
    isSuffOf ";".data x = true := by
  unfold isSuffOf at h ⊢
  have hrev : (ucL x).reverse = x.reverse.map ucChar := by
    unfold ucL; rw [← List.map_reverse]
  rw [hrev] at h
  cases hx : x.reverse with
  | nil => rw [hx] at h; exact absurd h (by decide)
  | cons a t =>
    rw [hx] at h
    have e : ("END;".data).reverse = [';', 'D', 'N', 'E'] := by decide
    rw [e] at h
    simp only [List.map_cons, isPrefOf, Bool.and_eq_true] at h
    have h1 : ';' = ucChar a := by
      have := h.1
      simpa using this
    have ha : a = ';' := ucChar_semi h1.symm
    have e2 : (";".data) = [';'] := by decide
    rw [e2]
    simp [isPrefOf, ha]

theorem commentizeSeg_id {seg : List Char} (h : segMatches seg = false) :
    commentizeSeg seg = seg := by
  match seg with
  | [] => rfl
  | [c] => rfl
  | c :: d :: t =>
    have hc : isAsciiLetter c = false := h
    simp [commentizeSeg, hc]

theorem commentizeAux_id : ∀ (fuel : Nat) (s : List Char),
    lineMatchAux fuel s = false → commentizeAux fuel s = s := by
  intro fuel
  induction fuel with
  | zero => intro s _; rfl
  | succ n ih =>
    intro s h
    cases hd : s.dropWhile (fun c => !(isLineTerm c)) with
    | nil =>
      have hs : segMatches s = false := by
        unfold lineMatchAux at h; rw [hd] at h; exact h
      show commentizeAux (n + 1) s = s
      unfold commentizeAux
      rw [hd]
      exact commentizeSeg_id hs
    | cons t rest =>
      have hor : (segMatches (s.takeWhile fun c => !(isLineTerm c))
          || lineMatchAux n rest) = false := by
        unfold lineMatchAux at h; rw [hd] at h; exact h
      obtain ⟨h1, h2⟩ := Bool.or_eq_false_iff.mp hor
      show commentizeAux (n + 1) s = s
      unfold commentizeAux
      rw [hd]
      show commentizeSeg (s.takeWhile fun c => !(isLineTerm c))
          ++ t :: commentizeAux n rest = s
      rw [commentizeSeg_id h1, ih rest h2]
      conv_rhs =>
        rw [← List.takeWhile_append_dropWhile (fun c => !(isLineTerm c)) s]
      rw [hd]

/-- If `^([A-Za-z].+)` finds no match in the line — no segment between its
line terminators starts with a letter followed by a second character — the
comment-conversion pass leaves the line unchanged. -/
theorem commentizeLine_id {l : List Char} (h : lineHasMatch l = false) :
    commentizeLine l = l :=
  commentizeAux_id _ l h

/-- The splitter's line loop, on lines that contain no terminator (no trimmed
`/` line, no trimmed line ending in `;`), only accumulates text: no statement
is pushed and `slashPending` stays off. -/
theorem splitFold_inv :
    ∀ (ls : List (List Char)) (S : List (List Char)) (C : List Char) (P : Bool),
      (∀ l ∈ ls, jsTrimL l ≠ ['/'] ∧ isSuffOf ";".data (jsTrimL l) = false) →
      ∃ Q, ls.foldl splitStep ⟨S, C, P, false⟩
          = ⟨S, C ++ glueNL ((ls.map jsTrimL).filter fun x => x ≠ []), Q, false⟩ := by
  intro ls
  induction ls with
  | nil => intro S C P _; exact ⟨P, by simp [glueNL]⟩
  | cons l ls ih =>
    intro S C P hl
    have hmem := hl l (List.mem_cons_self l ls)
    have hrest := fun x hx => hl x (List.mem_cons_of_mem l hx)
    rw [List.foldl_cons]
    by_cases ht : jsTrimL l = []
    · have hstep : splitStep ⟨S, C, P, false⟩ l = ⟨S, C, P, false⟩ := by
        simp [splitStep, ht]
      rw [hstep]
      obtain ⟨Q, hQ⟩ := ih S C P hrest
      refine ⟨Q, ?_⟩
      rw [hQ]
      simp [List.filter_cons, ht]
    · have hslash := hmem.1
      have hsemi := hmem.2
      have hEnd : isSuffOf "END;".data (ucL (jsTrimL l)) = false := by
        cases hE : isSuffOf "END;".data (ucL (jsTrimL l)) with
        | false => rfl
        | true => exact absurd (uc_endsSemi hE) (by simp [hsemi])
      have hstep : splitStep ⟨S, C, P, false⟩ l
          = ⟨S, C ++ jsTrimL l ++ ['\n'],
             P || isPrefOf "BEGIN".data (ucL (jsTrimL l))
               || isPrefOf "DECLARE".data (ucL (jsTrimL l))
               || matchCreateProcHead (ucL (jsTrimL l)), false⟩ := by
        simp [splitStep, ht, hslash, hsemi, hEnd]
      rw [hstep]
      obtain ⟨Q, hQ⟩ := ih S (C ++ jsTrimL l ++ ['\n'])
        (P || isPrefOf "BEGIN".data (ucL (jsTrimL l))
           || isPrefOf "DECLARE".data (ucL (jsTrimL l))
           || matchCreateProcHead (ucL (jsTrimL l))) hrest
      refine ⟨Q, ?_⟩
      rw [hQ]
      have hglue : (C ++ jsTrimL l ++ ['\n'])
            ++ glueNL ((ls.map jsTrimL).filter fun x => x ≠ [])
          = C ++ glueNL (((l :: ls).map jsTrimL).filter fun x => x ≠ []) := by
        simp only [List.map_cons, List.filter_cons]
        rw [if_pos (by simpa using ht)]
        show _ = C ++ (jsTrimL l ++ '\n' :: glueNL _)
        simp
      rw [hglue]

/-- C6 counterexample: a non-empty script with no statement terminators whose
single line starts with a letter in column 0 — the comment-conversion pass
turns it into `-- CREATE TABLE ...` and the comment filter then discards it,
so the splitter returns ZERO statements, not one. -/
theorem splitOracle_no_terminators_cex :
    splitOracleStatements "CREATE TABLE employees (id INT)" = [] := by decide

/-- C6 amended: for every non-empty script with no statement terminators (no
line trimming to `/` and no line whose trimmed form ends in `;`), in which
the comment pre-pass `/^([A-Za-z].+)/gm` finds no match — no segment at a
line start or just after a line terminator (LF, CR, LS, PS) begins with an
ASCII letter followed by a second character — and at least one line is
non-blank and not a `--` comment, `splitOracleStatements` returns exactly one
statement, whose content is the script's non-blank lines, each trimmed,
joined by newlines (not the verbatim script text). -/
theorem splitOracle_no_terminators (q : String)
    (h1 : ∀ l ∈ splitSep '\n' q.data, lineHasMatch l = false)
    (h2 : ∀ l ∈ splitSep '\n' q.data, jsTrimL l ≠ ['/'] ∧ isSuffOf ";".data (jsTrimL l) = false)
    (h3 : ∃ l, l ∈ splitSep '\n' q.data ∧ jsTrimL l ≠ []
            ∧ isPrefOf "--".data (jsTrimL l) = false) :
    splitOracleStatements q
      = [⟨joinNL ((((splitSep '\n' q.data).map jsTrimL).filter fun x => x ≠ []))⟩] := by
  have hcomm : (splitSep '\n' q.data).map commentizeLine = splitSep '\n' q.data := by
    calc (splitSep '\n' q.data).map commentizeLine
        = (splitSep '\n' q.data).map id :=
          List.map_congr_left (fun a ha => commentizeLine_id (h1 a ha))
      _ = splitSep '\n' q.data := List.map_id _
  obtain ⟨Q, hQ⟩ := splitFold_inv (splitSep '\n' q.data) [] [] false h2
  have hparts_ne : (((splitSep '\n' q.data).map jsTrimL).filter fun x => x ≠ []) ≠ [] := by
    obtain ⟨l0, hl0, hne0, -⟩ := h3
    have hmem : jsTrimL l0 ∈ (((splitSep '\n' q.data).map jsTrimL).filter fun x => x ≠ []) :=
      List.mem_filter.mpr ⟨List.mem_map_of_mem _ hl0, by simpa using hne0⟩
    exact List.ne_nil_of_mem hmem
  have hclean : ∀ p ∈ (((splitSep '\n' q.data).map jsTrimL).filter fun x => x ≠ []),
      jsTrimL p = p ∧ p ≠ [] := by
    intro p hp
    obtain ⟨hmem, hpred⟩ := List.mem_filter.mp hp
    obtain ⟨l1, -, hl1⟩ := List.mem_map.mp hmem
    refine ⟨?_, by simpa using hpred⟩
    rw [← hl1]; exact jsTrimL_idem l1
  have htrim : jsTrimL (glueNL (((splitSep '\n' q.data).map jsTrimL).filter fun x => x ≠ []))
      = joinNL (((splitSep '\n' q.data).map jsTrimL).filter fun x => x ≠ []) :=
    jsTrimL_glueNL _ hparts_ne hclean
  have hJne : joinNL (((splitSep '\n' q.data).map jsTrimL).filter fun x => x ≠ []) ≠ [] :=
    joinNL_ne_nil hparts_ne (fun p hp => (hclean p hp).2)
  have hnonl : ∀ p ∈ (((splitSep '\n' q.data).map jsTrimL).filter fun x => x ≠ []), '\n' ∉ p := by
    intro p hp hnl
    obtain ⟨hmem, -⟩ := List.mem_filter.mp hp
    obtain ⟨l1, hl1mem, hl1⟩ := List.mem_map.mp hmem
    rw [← hl1] at hnl
    exact splitSep_no_sep '\n' q.data l1 hl1mem (mem_of_mem_jsTrimL hnl)
  have hsplit : splitSep '\n' (joinNL (((splitSep '\n' q.data).map jsTrimL).filter fun x => x ≠ []))
      = (((splitSep '\n' q.data).map jsTrimL).filter fun x => x ≠ []) :=
    splitSep_joinNL _ hnonl hparts_ne
  have hcw : isCommentOnly (joinNL (((splitSep '\n' q.data).map jsTrimL).filter fun x => x ≠ []))
      = false := by
    unfold isCommentOnly
    rw [hsplit]
    obtain ⟨l0, hl0, hne0, hnc0⟩ := h3
    have hp0 : jsTrimL l0 ∈ (((splitSep '\n' q.data).map jsTrimL).filter fun x => x ≠ []) :=
      List.mem_filter.mpr ⟨List.mem_map_of_mem _ hl0, by simpa using hne0⟩
    have hmem2 : jsTrimL l0 ∈ ((((splitSep '\n' q.data).map jsTrimL).filter fun x => x ≠ []).filter
        fun l => !(isPrefOf "--".data (jsTrimL l))) :=
      List.mem_filter.mpr ⟨hp0, by simp [jsTrimL_idem, hnc0]⟩
    have hmem3 : jsTrimL l0 ∈ (((((splitSep '\n' q.data).map jsTrimL).filter fun x => x ≠ []).filter
        fun l => !(isPrefOf "--".data (jsTrimL l))).filter fun l => jsTrimL l ≠ []) :=
      List.mem_filter.mpr ⟨hmem2, by simp [jsTrimL_idem, hne0]⟩
    rw [List.isEmpty_eq_false]
    exact List.ne_nil_of_mem hmem3
  unfold splitOracleStatements splitOracleL
  simp only []
  rw [hcomm, hQ]
  simp only [List.nil_append]
  rw [if_pos (by rw [htrim]; exact hJne)]
  rw [htrim]
  simp only [List.nil_append, List.filter_cons, hcw]
  simp

theorem splitOracle_no_terminators_witness :
    (∀ l ∈ splitSep '\n' ("  SELECT 1\n  FROM dual" : String).data, lineHasMatch l = false) ∧
    (∀ l ∈ splitSep '\n' ("  SELECT 1\n  FROM dual" : String).data,
      jsTrimL l ≠ ['/'] ∧ isSuffOf ";".data (jsTrimL l) = false) ∧
    (∃ l, l ∈ splitSep '\n' ("  SELECT 1\n  FROM dual" : String).data ∧ jsTrimL l ≠ []
      ∧ isPrefOf "--".data (jsTrimL l) = false) ∧
    splitOracleStatements "  SELECT 1\n  FROM dual"
      = [⟨joinNL ((((splitSep '\n' ("  SELECT 1\n  FROM dual" : String).data).map jsTrimL).filter
          fun x => x ≠ []))⟩] :=
  ⟨by decide, by decide, by decide,
    splitOracle_no_terminators "  SELECT 1\n  FROM dual" (by decide) (by decide) (by decide)⟩

/-! ## C3 — the namespacing rewrite is not idempotent

Support lemmas about the scanners on word-character text. -/

theorem wordChar_not_space {c : Char} (h : isWordChar c = true) : jsIsSpace c = false := by
  simp only [isWordChar, Bool.or_eq_true, Bool.and_eq_true, decide_eq_true_eq,
    Nat.beq_eq_true_eq] at h
  apply Bool.eq_false_iff.mpr
  intro hs
  simp only [jsIsSpace, Bool.or_eq_true, Nat.beq_eq_true_eq] at hs
  omega

/-- `\w+` munches an entire all-word input. -/
theorem matchWord1_all {w : List Char} (hw : ∀ c ∈ w, isWordChar c = true) (h0 : w ≠ []) :
    matchWord1 w = some (w, []) := by
  cases w with
  | nil => exact absurd rfl h0
  | cons c cs =>
    have hc : isWordChar c = true := hw c (by simp)
    show (if isWordChar c = true
        then some ((c :: cs).takeWhile isWordChar, (c :: cs).dropWhile isWordChar)
        else none) = some (c :: cs, [])
    rw [if_pos hc]
    rw [List.takeWhile_eq_self_iff.mpr hw, List.dropWhile_eq_nil_iff.mpr (fun x hx => hw x hx)]

/-- `takeWhile`/`dropWhile` on whitespace do nothing to all-word text. -/
theorem ws_all_word {w : List Char} (hw : ∀ c ∈ w, isWordChar c = true) :
    w.takeWhile jsIsSpace = [] ∧ w.dropWhile jsIsSpace = w := by
  cases w with
  | nil => exact ⟨rfl, rfl⟩
  | cons c cs =>
    have hc : jsIsSpace c = false := wordChar_not_space (hw c (by simp))
    constructor
    · rw [List.takeWhile_cons, if_neg (by simp [hc])]
    · rw [List.dropWhile_cons, if_neg (by simp [hc])]

/-- `\s+` fails on all-word text. -/
theorem matchWs1_all {w : List Char} (hw : ∀ c ∈ w, isWordChar c = true) :
    matchWs1 w = none := by
  cases w with
  | nil => rfl
  | cons c cs =>
    have hc : jsIsSpace c = false := wordChar_not_space (hw c (by simp))
    show (if jsIsSpace c = true
        then some ((c :: cs).takeWhile jsIsSpace, (c :: cs).dropWhile jsIsSpace)
        else none) = none
    rw [if_neg (by simp [hc])]

/-- A case-insensitive match inside all-word text leaves all-word text. -/
theorem matchCI_all_word {p w r : List Char} (h : matchCI p w = some r)
    (hw : ∀ c ∈ w, isWordChar c = true) : ∀ c ∈ r, isWordChar c = true := by
  intro c hc
  have := matchCI_drop p w r h
  subst this
  exact hw c (List.mem_of_mem_drop hc)

/-- The `IF NOT EXISTS` lookahead cannot fire inside all-word text. -/
theorem lookIfNotExists_all {w : List Char} (hw : ∀ c ∈ w, isWordChar c = true) :
    lookIfNotExists w = false := by
  cases h1 : matchCI "if".data w with
  | none => simp [lookIfNotExists, h1]
  | some r1 => simp [lookIfNotExists, h1, matchWs1_all (matchCI_all_word h1 hw)]

/-- The CREATE regex cannot match at any position of all-word text. -/
theorem tryCreate_all {tok w : List Char} (hw : ∀ c ∈ w, isWordChar c = true) :
    tryCreate tok w = none := by
  cases h1 : matchCI "create".data w with
  | none => simp [tryCreate, h1]
  | some r0 => simp [tryCreate, h1, matchWs1_all (matchCI_all_word h1 hw)]

/-- The CREATE replacement is the identity on all-word text. -/
theorem createScan_all {tok : List Char} :
    ∀ {w : List Char}, (∀ c ∈ w, isWordChar c = true) → createScan tok w = w := by
  intro w
  induction w with
  | nil => intro _; rfl
  | cons c cs ih =>
    intro hw
    rw [createScan_skip (tryCreate_all hw)]
    rw [ih (fun x hx => hw x (List.mem_cons_of_mem c hx))]

/-- On a successful keyword-alternation match inside all-word text, the rest
is still all-word. -/
theorem refAlt_all_word {w g r : List Char} (h : refAlt w = some (g, r))
    (hw : ∀ c ∈ w, isWordChar c = true) : ∀ c ∈ r, isWordChar c = true := by
  unfold refAlt at h
  cases h1 : matchCI "from".data w with
  | some r1 =>
    simp [h1] at h
    exact fun c hc => matchCI_all_word h1 hw c (h.2 ▸ hc)
  | none =>
  simp only [h1] at h
  cases h2 : matchCI "join".data w with
  | some r2 =>
    simp [h2] at h
    exact fun c hc => matchCI_all_word h2 hw c (h.2 ▸ hc)
  | none =>
  simp only [h2] at h
  cases h3 : matchCI "into".data w with
  | some r3 =>
    simp [h3] at h
    exact fun c hc => matchCI_all_word h3 hw c (h.2 ▸ hc)
  | none =>
  simp only [h3] at h
  cases h4 : matchCI "table".data w with
  | some r4 =>
    simp only [h4] at h
    rw [matchWs1_all (matchCI_all_word h4 hw)] at h
    cases h5 : matchCI "ref".data w with
    | some r5 =>
      simp [h5] at h
      exact fun c hc => matchCI_all_word h5 hw c (h.2 ▸ hc)
    | none => simp [h5] at h
  | none =>
  simp only [h4] at h
  cases h5 : matchCI "ref".data w with
  | some r5 =>
    simp [h5] at h
    exact fun c hc => matchCI_all_word h5 hw c (h.2 ▸ hc)
  | none => simp [h5] at h

/-- The reference regex cannot match at any position of all-word text: after
any keyword the required `\s+` meets a word character. -/
theorem tryRef_all {tok : List Char} {pw : Bool} {w : List Char}
    (hw : ∀ c ∈ w, isWordChar c = true) : tryRef tok pw w = none := by
  unfold tryRef
  by_cases hp : pw = true
  · rw [if_pos hp]
  · rw [if_neg hp]
    cases h1 : refAlt w with
    | none => rfl
    | some p =>
      obtain ⟨g, r⟩ := p
      simp [h1, matchWs1_all (refAlt_all_word h1 hw)]

/-- The reference replacement is the identity on all-word text. -/
theorem refScan_all {tok : List Char} :
    ∀ {w : List Char} (pw : Bool), (∀ c ∈ w, isWordChar c = true) → refScan tok pw w = w := by
  intro w
  induction w with
  | nil => intro pw _; rfl
  | cons c cs ih =>
    intro pw hw
    rw [refScan_skip (tryRef_all hw)]
    rw [ih (isWordChar c) (fun x hx => hw x (List.mem_cons_of_mem c hx))]

/-- `\s+` after a single space followed by all-word text munches just the
space. -/
theorem matchWs1_space_word {u : List Char} (hu : ∀ c ∈ u, isWordChar c = true) :
    matchWs1 (' ' :: u) = some ([' '], u) := by
  show (if jsIsSpace ' ' = true
      then some ((' ' :: u).takeWhile jsIsSpace, (' ' :: u).dropWhile jsIsSpace)
      else none) = some ([' '], u)
  rw [if_pos (by decide), List.takeWhile_cons, List.dropWhile_cons,
    if_pos (by decide), if_pos (by decide), (ws_all_word hu).1, (ws_all_word hu).2]

theorem isPrefOf_append_cons :
    ∀ (a : List Char) (x : Char) (y : List Char), isPrefOf (a ++ [x]) (a ++ x :: y) = true := by
  intro a
  induction a with
  | nil => intro x y; simp [isPrefOf]
  | cons c cs ih =>
    intro x y
    show isPrefOf (c :: (cs ++ [x])) (c :: (cs ++ x :: y)) = true
    simp [isPrefOf, ih]

/-- The CREATE regex matches `CREATE TABLE <word>` at the head and rewrites
it with the session prefix, consuming the whole text. -/
theorem tryCreate_create_table {tok w : List Char} (hw : ∀ c ∈ w, isWordChar c = true)
    (h0 : w ≠ []) :
    tryCreate tok ("CREATE TABLE ".data ++ w)
      = some ("CREATE TABLE ".data ++ (tok ++ '_' :: w), []) := by
  have e1 : matchCI ['c', 'r', 'e', 'a', 't', 'e']
        ('C' :: 'R' :: 'E' :: 'A' :: 'T' :: 'E' :: ' ' :: 'T' :: 'A' :: 'B' :: 'L' :: 'E' :: ' ' :: w)
      = some (' ' :: 'T' :: 'A' :: 'B' :: 'L' :: 'E' :: ' ' :: w) := rfl
  have e2 : matchWs1 (' ' :: 'T' :: 'A' :: 'B' :: 'L' :: 'E' :: ' ' :: w)
      = some ([' '], 'T' :: 'A' :: 'B' :: 'L' :: 'E' :: ' ' :: w) := rfl
  have e3 : orReplace ('T' :: 'A' :: 'B' :: 'L' :: 'E' :: ' ' :: w) = none := rfl
  have e4 : tvvAlt ('T' :: 'A' :: 'B' :: 'L' :: 'E' :: ' ' :: w)
      = some (['T', 'A', 'B', 'L', 'E'], ' ' :: w) := rfl
  have e5 : matchWs1 (' ' :: w) = some ([' '], w) := matchWs1_space_word hw
  have e6 : lookIfNotExists w = false := lookIfNotExists_all hw
  have e7 : matchWord1 w = some (w, []) := matchWord1_all hw h0
  have et : tryCreateTail ('T' :: 'A' :: 'B' :: 'L' :: 'E' :: ' ' :: w)
      = some (['T', 'A', 'B', 'L', 'E'], w, []) := by
    simp [tryCreateTail, e4, e5, e6, e7]
  simp [tryCreate, e1, e2, e3, et]

theorem createScan_create_table {tok w : List Char} (hw : ∀ c ∈ w, isWordChar c = true)
    (h0 : w ≠ []) :
    createScan tok ("CREATE TABLE ".data ++ w)
      = "CREATE TABLE ".data ++ (tok ++ '_' :: w) := by
  have hc : tryCreate tok ('C' :: ("REATE TABLE ".data ++ w))
      = some ("CREATE TABLE ".data ++ (tok ++ '_' :: w), []) := tryCreate_create_table hw h0
  have h1 : createScan tok ("CREATE TABLE ".data ++ w)
      = ("CREATE TABLE ".data ++ (tok ++ '_' :: w)) ++ createScan tok [] :=
    createScan_match hc
  rw [h1, createScan_nil, List.append_nil]

/-- The reference regex cannot fire on `TABLE <word>`: `TABLE OF` needs
whitespace after `OF`, which an all-word tail never provides. -/
theorem tryRef_table_word {tok : List Char} {pw : Bool} {u : List Char}
    (hu : ∀ c ∈ u, isWordChar c = true) :
    tryRef tok pw ('T' :: 'A' :: 'B' :: 'L' :: 'E' :: ' ' :: u) = none := by
  by_cases hp : pw = true
  · unfold tryRef; rw [if_pos hp]
  · have ef : matchCI ['f', 'r', 'o', 'm'] ('T' :: 'A' :: 'B' :: 'L' :: 'E' :: ' ' :: u)
        = none := rfl
    have ej : matchCI ['j', 'o', 'i', 'n'] ('T' :: 'A' :: 'B' :: 'L' :: 'E' :: ' ' :: u)
        = none := rfl
    have ei : matchCI ['i', 'n', 't', 'o'] ('T' :: 'A' :: 'B' :: 'L' :: 'E' :: ' ' :: u)
        = none := rfl
    have etb : matchCI ['t', 'a', 'b', 'l', 'e'] ('T' :: 'A' :: 'B' :: 'L' :: 'E' :: ' ' :: u)
        = some (' ' :: u) := rfl
    have er : matchCI ['r', 'e', 'f'] ('T' :: 'A' :: 'B' :: 'L' :: 'E' :: ' ' :: u)
        = none := rfl
    have ews : matchWs1 (' ' :: u) = some ([' '], u) := matchWs1_space_word hu
    cases hof : matchCI "of".data u with
    | none => simp [tryRef, hp, refAlt, ef, ej, ei, etb, er, ews, hof]
    | some r =>
      simp [tryRef, hp, refAlt, ef, ej, ei, etb, er, ews, hof,
        matchWs1_all (matchCI_all_word hof hu)]

/-- The reference rewrite leaves `CREATE TABLE <word>` untouched. -/
theorem refScan_create_table {tok u : List Char} (hu : ∀ c ∈ u, isWordChar c = true) :
    refScan tok false ("CREATE TABLE ".data ++ u) = "CREATE TABLE ".data ++ u := by
  have t1 : refScan tok false ("CREATE TABLE ".data ++ u)
      = 'C' :: refScan tok true ("REATE TABLE ".data ++ u) := refScan_skip rfl
  have t2 : refScan tok true ("REATE TABLE ".data ++ u)
      = 'R' :: refScan tok true ("EATE TABLE ".data ++ u) := refScan_skip rfl
  have t3 : refScan tok true ("EATE TABLE ".data ++ u)
      = 'E' :: refScan tok true ("ATE TABLE ".data ++ u) := refScan_skip rfl
  have t4 : refScan tok true ("ATE TABLE ".data ++ u)
      = 'A' :: refScan tok true ("TE TABLE ".data ++ u) := refScan_skip rfl
  have t5 : refScan tok true ("TE TABLE ".data ++ u)
      = 'T' :: refScan tok true ("E TABLE ".data ++ u) := refScan_skip rfl
  have t6 : refScan tok true ("E TABLE ".data ++ u)
      = 'E' :: refScan tok true (" TABLE ".data ++ u) := refScan_skip rfl
  have t7 : refScan tok true (" TABLE ".data ++ u)
      = ' ' :: refScan tok false ("TABLE ".data ++ u) := refScan_skip rfl
  have t8 : refScan tok false ("TABLE ".data ++ u)
      = 'T' :: refScan tok true ("ABLE ".data ++ u) := refScan_skip (tryRef_table_word hu)
  have t9 : refScan tok true ("ABLE ".data ++ u)
      = 'A' :: refScan tok true ("BLE ".data ++ u) := refScan_skip rfl
  have t10 : refScan tok true ("BLE ".data ++ u)
      = 'B' :: refScan tok true ("LE ".data ++ u) := refScan_skip rfl
  have t11 : refScan tok true ("LE ".data ++ u)
      = 'L' :: refScan tok true ("E ".data ++ u) := refScan_skip rfl
  have t12 : refScan tok true ("E ".data ++ u)
      = 'E' :: refScan tok true (' ' :: u) := refScan_skip rfl
  have t13 : refScan tok true (' ' :: u)
      = ' ' :: refScan tok false u := refScan_skip rfl
  have t14 : refScan tok false u = u := refScan_all false hu
  rw [t1, t2, t3, t4, t5, t6, t7, t8, t9, t10, t11, t12, t13, t14]
  rfl

/-- The full rewrite on `CREATE TABLE <word>`: the identifier gets the
prefix, whatever word it already is — there is no already-prefixed check. -/
theorem namespaceStatementL_create_table {t w : List Char}
    (ht : ∀ c ∈ t, isWordChar c = true) (hw : ∀ c ∈ w, isWordChar c = true) (h0 : w ≠ []) :
    namespaceStatementL t ("CREATE TABLE ".data ++ w)
      = "CREATE TABLE ".data ++ (t ++ '_' :: w) := by
  have hall : ∀ c ∈ t ++ '_' :: w, isWordChar c = true := by
    intro c hc
    rcases List.mem_append.mp hc with h | h
    · exact ht c h
    · rcases List.mem_cons.mp h with h | h
      · subst h; decide
      · exact hw c h
  unfold namespaceStatementL
  rw [createScan_create_table hw h0, refScan_create_table hall]

/-- The CREATE replacement does not touch `DELETE FROM <word>` text. -/
theorem createScan_delete_from {tok X : List Char} (hX : ∀ c ∈ X, isWordChar c = true) :
    createScan tok ("DELETE FROM ".data ++ X) = "DELETE FROM ".data ++ X := by
  have t1 : createScan tok ("DELETE FROM ".data ++ X)
      = 'D' :: createScan tok ("ELETE FROM ".data ++ X) := createScan_skip rfl
  have t2 : createScan tok ("ELETE FROM ".data ++ X)
      = 'E' :: createScan tok ("LETE FROM ".data ++ X) := createScan_skip rfl
  have t3 : createScan tok ("LETE FROM ".data ++ X)
      = 'L' :: createScan tok ("ETE FROM ".data ++ X) := createScan_skip rfl
  have t4 : createScan tok ("ETE FROM ".data ++ X)
      = 'E' :: createScan tok ("TE FROM ".data ++ X) := createScan_skip rfl
  have t5 : createScan tok ("TE FROM ".data ++ X)
      = 'T' :: createScan tok ("E FROM ".data ++ X) := createScan_skip rfl
  have t6 : createScan tok ("E FROM ".data ++ X)
      = 'E' :: createScan tok (" FROM ".data ++ X) := createScan_skip rfl
  have t7 : createScan tok (" FROM ".data ++ X)
      = ' ' :: createScan tok ("FROM ".data ++ X) := createScan_skip rfl
  have t8 : createScan tok ("FROM ".data ++ X)
      = 'F' :: createScan tok ("ROM ".data ++ X) := createScan_skip rfl
  have t9 : createScan tok ("ROM ".data ++ X)
      = 'R' :: createScan tok ("OM ".data ++ X) := createScan_skip rfl
  have t10 : createScan tok ("OM ".data ++ X)
      = 'O' :: createScan tok ("M ".data ++ X) := createScan_skip rfl
  have t11 : createScan tok ("M ".data ++ X)
      = 'M' :: createScan tok (' ' :: X) := createScan_skip rfl
  have t12 : createScan tok (' ' :: X)
      = ' ' :: createScan tok X := createScan_skip rfl
  have t13 : createScan tok X = X := createScan_all hX
  rw [t1, t2, t3, t4, t5, t6, t7, t8, t9, t10, t11, t12, t13]
  rfl

/-- The reference regex matches `FROM <tok>_<word>` but the callback skips an
already-prefixed name: the matched text is returned unchanged and the scan
moves past it. -/
theorem tryRef_from_prefixed {tok m : List Char} (ht : ∀ c ∈ tok, isWordChar c = true)
    (hm : ∀ c ∈ m, isWordChar c = true) :
    tryRef tok false ('F' :: 'R' :: 'O' :: 'M' :: ' ' :: (tok ++ '_' :: m))
      = some ('F' :: 'R' :: 'O' :: 'M' :: ' ' :: (tok ++ '_' :: m), []) := by
  have hXw : ∀ c ∈ tok ++ '_' :: m, isWordChar c = true := by
    intro c hc
    rcases List.mem_append.mp hc with h | h
    · exact ht c h
    · rcases List.mem_cons.mp h with h | h
      · subst h; decide
      · exact hm c h
  have eF : matchCI ['f', 'r', 'o', 'm'] ('F' :: 'R' :: 'O' :: 'M' :: ' ' :: (tok ++ '_' :: m))
      = some (' ' :: (tok ++ '_' :: m)) := rfl
  have era : refAlt ('F' :: 'R' :: 'O' :: 'M' :: ' ' :: (tok ++ '_' :: m))
      = some (['F', 'R', 'O', 'M'], ' ' :: (tok ++ '_' :: m)) := by
    simp [refAlt, eF]
  have eW : matchWs1 (' ' :: (tok ++ '_' :: m)) = some ([' '], tok ++ '_' :: m) :=
    matchWs1_space_word hXw
  have eN : matchWord1 (tok ++ '_' :: m) = some (tok ++ '_' :: m, []) :=
    matchWord1_all hXw (by simp)
  have eP : isPrefOf (tok ++ ['_']) (tok ++ '_' :: m) = true := isPrefOf_append_cons tok '_' m
  simp [tryRef, era, eW, eN, eP]

/-- The reference rewrite leaves `DELETE FROM <tok>_<word>` unchanged. -/
theorem refScan_delete_from {tok m : List Char} (ht : ∀ c ∈ tok, isWordChar c = true)
    (hm : ∀ c ∈ m, isWordChar c = true) :
    refScan tok false ("DELETE FROM ".data ++ (tok ++ '_' :: m))
      = "DELETE FROM ".data ++ (tok ++ '_' :: m) := by
  have t1 : refScan tok false ("DELETE FROM ".data ++ (tok ++ '_' :: m))
      = 'D' :: refScan tok true ("ELETE FROM ".data ++ (tok ++ '_' :: m)) := refScan_skip rfl
  have t2 : refScan tok true ("ELETE FROM ".data ++ (tok ++ '_' :: m))
      = 'E' :: refScan tok true ("LETE FROM ".data ++ (tok ++ '_' :: m)) := refScan_skip rfl
  have t3 : refScan tok true ("LETE FROM ".data ++ (tok ++ '_' :: m))
      = 'L' :: refScan tok true ("ETE FROM ".data ++ (tok ++ '_' :: m)) := refScan_skip rfl
  have t4 : refScan tok true ("ETE FROM ".data ++ (tok ++ '_' :: m))
      = 'E' :: refScan tok true ("TE FROM ".data ++ (tok ++ '_' :: m)) := refScan_skip rfl
  have t5 : refScan tok true ("TE FROM ".data ++ (tok ++ '_' :: m))
      = 'T' :: refScan tok true ("E FROM ".data ++ (tok ++ '_' :: m)) := refScan_skip rfl
  have t6 : refScan tok true ("E FROM ".data ++ (tok ++ '_' :: m))
      = 'E' :: refScan tok true (" FROM ".data ++ (tok ++ '_' :: m)) := refScan_skip rfl
  have t7 : refScan tok true (" FROM ".data ++ (tok ++ '_' :: m))
      = ' ' :: refScan tok false ('F' :: 'R' :: 'O' :: 'M' :: ' ' :: (tok ++ '_' :: m)) :=
    refScan_skip rfl
  have t8 : refScan tok false ('F' :: 'R' :: 'O' :: 'M' :: ' ' :: (tok ++ '_' :: m))
      = ('F' :: 'R' :: 'O' :: 'M' :: ' ' :: (tok ++ '_' :: m)) ++ refScan tok true [] :=
    refScan_match (tryRef_from_prefixed ht hm)
  rw [t1, t2, t3, t4, t5, t6, t7, t8, refScan_nil, List.append_nil]
  rfl

/-- The full rewrite leaves an already-prefixed `FROM` reference unchanged:
the reference rule's skip guard works. -/
theorem namespaceStatementL_delete_from {t m : List Char}
    (ht : ∀ c ∈ t, isWordChar c = true) (hm : ∀ c ∈ m, isWordChar c = true) :
    namespaceStatementL t ("DELETE FROM ".data ++ (t ++ '_' :: m))
      = "DELETE FROM ".data ++ (t ++ '_' :: m) := by
  have hXw : ∀ c ∈ t ++ '_' :: m, isWordChar c = true := by
    intro c hc
    rcases List.mem_append.mp hc with h | h
    · exact ht c h
    · rcases List.mem_cons.mp h with h | h
      · subst h; decide
      · exact hm c h
  unfold namespaceStatementL
  rw [createScan_delete_from hXw, refScan_delete_from ht hm]

/-- C3 counterexample: the rewrite is not idempotent — re-applying it to an
already-rewritten CREATE TABLE statement double-prefixes the identifier,
because the CREATE rule (unlike the reference rule) has no already-prefixed
check. -/
theorem namespaceStatement_not_idempotent_cex :
    namespaceStatement (namespaceStatement "CREATE TABLE employees (id INT)" "alice_1") "alice_1"
      ≠ namespaceStatement "CREATE TABLE employees (id INT)" "alice_1"
    ∧ namespaceStatement (namespaceStatement "CREATE TABLE employees (id INT)" "alice_1") "alice_1"
      = "CREATE TABLE alice_1_alice_1_employees (id INT)"
    ∧ namespaceStatement "CREATE TABLE employees (id INT)" "alice_1"
      = "CREATE TABLE alice_1_employees (id INT)" := by decide

/-- C3 amended: the rewrite is NOT idempotent.  For every word-character
token `t` and word-character identifiers `n`, `m`: one application prefixes
the CREATE TABLE identifier; a second application prefixes it AGAIN
(`t_t_n`), because the CREATE rule never checks for an existing prefix; the
reference rule, by contrast, does skip already-prefixed names, so an
already-prefixed `FROM` reference is left unchanged. -/
theorem namespaceStatement_double_prefix (t n m : List Char)
    (ht : ∀ c ∈ t, isWordChar c = true) (hn : ∀ c ∈ n, isWordChar c = true)
    (hm : ∀ c ∈ m, isWordChar c = true) (hn0 : n ≠ []) :
    namespaceStatementL t ("CREATE TABLE ".data ++ n)
        = "CREATE TABLE ".data ++ (t ++ '_' :: n)
    ∧ namespaceStatementL t (namespaceStatementL t ("CREATE TABLE ".data ++ n))
        = "CREATE TABLE ".data ++ (t ++ '_' :: (t ++ '_' :: n))
    ∧ namespaceStatementL t ("DELETE FROM ".data ++ (t ++ '_' :: m))
        = "DELETE FROM ".data ++ (t ++ '_' :: m) := by
  have hall : ∀ c ∈ t ++ '_' :: n, isWordChar c = true := by
    intro c hc
    rcases List.mem_append.mp hc with h | h
    · exact ht c h
    · rcases List.mem_cons.mp h with h | h
      · subst h; decide
      · exact hn c h
  refine ⟨namespaceStatementL_create_table ht hn hn0, ?_,
    namespaceStatementL_delete_from ht hm⟩
  rw [namespaceStatementL_create_table ht hn hn0]
  exact namespaceStatementL_create_table ht hall (by simp)

theorem namespaceStatement_double_prefix_witness :
    (∀ c ∈ ("alice_1" : String).data, isWordChar c = true) ∧
    (∀ c ∈ ("employees" : String).data, isWordChar c = true) ∧
    (∀ c ∈ ("projects" : String).data, isWordChar c = true) ∧
    ("employees" : String).data ≠ [] ∧
    (namespaceStatementL ("alice_1" : String).data
        ("CREATE TABLE ".data ++ ("employees" : String).data)
        = "CREATE TABLE ".data ++ (("alice_1" : String).data ++ '_' :: ("employees" : String).data)
    ∧ namespaceStatementL ("alice_1" : String).data
        (namespaceStatementL ("alice_1" : String).data
          ("CREATE TABLE ".data ++ ("employees" : String).data))
        = "CREATE TABLE ".data ++ (("alice_1" : String).data
            ++ '_' :: (("alice_1" : String).data ++ '_' :: ("employees" : String).data))
    ∧ namespaceStatementL ("alice_1" : String).data
        ("DELETE FROM ".data ++ (("alice_1" : String).data ++ '_' :: ("projects" : String).data))
        = "DELETE FROM ".data ++ (("alice_1" : String).data ++ '_' :: ("projects" : String).data)) :=
  ⟨by decide, by decide, by decide, by decide,
    namespaceStatement_double_prefix ("alice_1" : String).data ("employees" : String).data
      ("projects" : String).data (by decide) (by decide) (by decide) (by decide)⟩
